import Mathlib

/-!
Shallow embedding of the WAL storage engine described in `spec.md` of the
repository (the series registry, the transactional appender, the segmented
on-disk log with replay and recovery, the truncation logic and staleness
marking).  The repository ships only the behavioural test file
`internal/static/metrics/wal/wal_test.go` for this engine; the engine itself
(`wal.go`) is not part of the source tree given here, so every definition
below is modelled from the specification text, as recorded in the doc
comment of each definition.  Where the specification is silent but the test
file pins the behaviour down (the out-of-order exemplar drop in
`TestStorage_DuplicateExemplarsIgnored`), the test file is taken as the
authority and the divergence is documented on the definition.
-/

namespace Wal

/-- Modelled from the spec: §3 LabelSet, "ordered collection of (name, value)
string pairs". -/
structure Label where
  name : String
  value : String
deriving DecidableEq

/-- Modelled from the spec: §3 LabelSet.  Label sets are used in canonical
order; equality is pairwise equality. -/
abbrev LabelSet := List Label

/-- Modelled from the spec: §3 Sample values are float64.  Values are carried
as their 64-bit IEEE-754 bit patterns so that the reserved stale-NaN sentinel
stays distinguishable from an ordinary NaN. -/
abbrev Value := Nat

/-- Modelled from the spec: §4.6, the reserved "stale" sentinel value, "a
specific NaN bit-pattern distinct from an ordinary not-a-number value"
(bit pattern 0x7ff0000000000002, as used by the downstream consumers of this
format). -/
def staleNaN : Value := 0x7ff0000000000002

/-- Modelled from the spec: §4.6, an ordinary ("normal") NaN bit pattern
(0x7ff8000000000001), used to express that the stale sentinel is a different
bit pattern. -/
def normalNaN : Value := 0x7ff8000000000001

/-- Modelled from the spec: a 64-bit value is a NaN bit pattern when its
exponent field is all ones and its mantissa field is non-zero. -/
def isNaNPattern (v : Value) : Bool :=
  decide (v / 2 ^ 52 % 2 ^ 11 = 2047) && decide (v % 2 ^ 52 ≠ 0)

/-- Modelled from the spec: §3 Exemplar,
`{ref, timestamp, value, labels, hasTimestamp}` (the ref is carried
separately where needed). -/
structure Exemplar where
  labels : LabelSet
  value : Value
  ts : Int
  hasTs : Bool
deriving DecidableEq

/-- Modelled from the spec: §3 SeriesEntry,
`{ref, labels, lastTimestamp}`. -/
structure SeriesEntry where
  ref : Nat
  labels : LabelSet
  lastTs : Int
deriving DecidableEq

/-- Modelled from the spec: §3 Record, the series variant (a registered ref
together with its label set), mirroring `record.RefSeries`. -/
structure RefSeries where
  ref : Nat
  labels : LabelSet
deriving DecidableEq

/-- Modelled from the spec: §3 Sample, `{ref, timestamp, value}`, mirroring
`record.RefSample`. -/
structure RefSample where
  ref : Nat
  t : Int
  v : Value
deriving DecidableEq

/-- Modelled from the spec: §3 Exemplar as durably recorded, mirroring
`record.RefExemplar` (ref, timestamp, value, labels). -/
structure RefExemplar where
  ref : Nat
  t : Int
  v : Value
  labels : LabelSet
deriving DecidableEq

/-- Modelled from the spec: §3 Histogram / FloatHistogram,
"{ref, timestamp, bucket/count representation}; structurally analogous to
Sample for lifecycle purposes".  The bucket representation is opaque here. -/
structure RefHistogram where
  ref : Nat
  t : Int
  h : Nat
deriving DecidableEq

/-- Modelled from the spec: §3 Record, the "tagged union over {SeriesRecord,
SampleRecord, ExemplarRecord, HistogramRecord, FloatHistogramRecord,
TombstoneRecord}; the durable unit appended to the Segmented Log". -/
inductive Rec where
  | series (r : Nat) (ls : LabelSet)
  | sample (r : Nat) (t : Int) (v : Value)
  | exemplar (r : Nat) (t : Int) (v : Value) (ls : LabelSet)
  | histogram (r : Nat) (t : Int) (h : Nat)
  | fhistogram (r : Nat) (t : Int) (h : Nat)
  | tombstone (r : Nat)
deriving DecidableEq

/-- Modelled from the spec: §7 error taxonomy. -/
inductive Err where
  | invalidLabels
  | unknownSeriesRef
  | exemplarLabelTooLong
  | invalidExemplar
  | walClosed
deriving DecidableEq

/-- Modelled from the spec: §2/§3, the Storage state: the Series Registry
(entries plus the ref counter, which holds the last allocated ref so that
refs are assigned monotonically starting at 1), the flat record contents of
the Segmented Log, the transient "last staged-or-committed exemplar per ref"
cache of §4.2, and the closed flag of §5. -/
structure Storage where
  registry : List SeriesEntry
  nextRef : Nat
  wal : List Rec
  lastEx : List (Nat × Exemplar)
  closed : Bool
deriving DecidableEq

/-- Modelled from the spec: §4.2, the per-transaction staging buffers of an
Appender. -/
structure Appender where
  pendingSeries : List RefSeries
  pendingSamples : List RefSample
  pendingExemplars : List RefExemplar
  pendingHist : List RefHistogram
  pendingFHist : List RefHistogram
deriving DecidableEq

/-- A fresh, empty storage (new log directory). -/
def freshStorage : Storage := ⟨[], 0, [], [], false⟩

/-- A fresh appender with empty staging buffers. -/
def emptyAppender : Appender := ⟨[], [], [], [], []⟩

/-- Modelled from the spec: §3 LabelSet invariant, "names unique within the
set". -/
def nodupNames : List String → Bool
  | [] => true
  | n :: rest => !(rest.contains n) && nodupNames rest

/-- Modelled from the spec: §4.2 append validity for a new series, "requires
labels non-empty and name-unique". -/
def lsetValid (ls : LabelSet) : Bool :=
  !ls.isEmpty && nodupNames (ls.map Label.name)

/-- Modelled from the spec: §4.1, the lookup half of
`getOrCreate(labels)`: find the registry entry with an equal LabelSet. -/
def findByLabels : List SeriesEntry → LabelSet → Option SeriesEntry
  | [], _ => none
  | e :: rest, ls => if e.labels = ls then some e else findByLabels rest ls

/-- Modelled from the spec: §4.1 `get(ref) -> SeriesEntry option`. -/
def findByRef : List SeriesEntry → Nat → Option SeriesEntry
  | [], _ => none
  | e :: rest, r => if e.ref = r then some e else findByRef rest r

/-- Modelled from the spec: §4.2, the per-ref lookup in the "last
staged-or-committed exemplar" cache. -/
def lookupEx : List (Nat × Exemplar) → Nat → Option Exemplar
  | [], _ => none
  | p :: rest, r => if p.1 = r then some p.2 else lookupEx rest r

/-- Modelled from the spec: §4.2/§9, updating the side map keyed by ref that
holds the last staged-or-committed exemplar. -/
def setEx : List (Nat × Exemplar) → Nat → Exemplar → List (Nat × Exemplar)
  | [], r, ex => [(r, ex)]
  | p :: rest, r, ex =>
      if p.1 = r then (r, ex) :: rest else p :: setEx rest r ex

/-- Modelled from the spec: §4.1 `updateTimestamp(ref, ts)` sets
`lastTimestamp = max(current, ts)`. -/
def updateTimestamp (st : Storage) (r : Nat) (t : Int) : Storage :=
  { st with
    registry := st.registry.map fun e =>
      if e.ref = r then { e with lastTs := max e.lastTs t } else e }

/-- Modelled from the spec: §4.2 `appendExemplar`'s label-length limit,
"a fixed maximum (matching the limit used by downstream consumers of this
format)" — 128 characters over all names and values. -/
def maxExemplarLabelLength : Nat := 128

/-- Summed length of an exemplar's label names and values. -/
def exLabelLen (ls : LabelSet) : Nat :=
  (ls.map (fun l => l.name.length + l.value.length)).sum

/-- An exemplar whose own label set passes the §4.2 checks: summed label
length within the maximum, and no duplicate label names. -/
def exOk (ex : Exemplar) : Bool :=
  decide (exLabelLen ex.labels ≤ maxExemplarLabelLength)
    && nodupNames (ex.labels.map Label.name)

/-- Modelled from the spec: §4.2 `append(ref, labels, ts, value)`.  With
`ref = 0` the labels must be non-empty and name-unique (`InvalidLabels`
otherwise); the ref is resolved or created through the Series Registry
(allocating `nextRef + 1`, so refs start at 1), a SeriesRecord is staged if
newly created, and a SampleRecord is staged.  With `ref ≠ 0` a SampleRecord
is staged directly with no ref validity check.  Per §5 every operation on a
closed engine fails with `walClosed`. -/
def append (st : Storage) (a : Appender) (ref : Nat) (ls : LabelSet)
    (t : Int) (v : Value) : Except Err (Storage × Appender × Nat) :=
  if st.closed then .error .walClosed
  else if ref = 0 then
    if lsetValid ls then
      match findByLabels st.registry ls with
      | some e =>
          .ok (st,
            { a with pendingSamples := a.pendingSamples ++ [⟨e.ref, t, v⟩] },
            e.ref)
      | none =>
          let r := st.nextRef + 1
          .ok ({ st with registry := st.registry ++ [⟨r, ls, 0⟩], nextRef := r },
            { a with
                pendingSeries := a.pendingSeries ++ [⟨r, ls⟩],
                pendingSamples := a.pendingSamples ++ [⟨r, t, v⟩] },
            r)
    else .error .invalidLabels
  else
    .ok (st, { a with pendingSamples := a.pendingSamples ++ [⟨ref, t, v⟩] }, ref)

/-- Modelled from the spec: §4.2 `appendExemplar(ref, exemplar)`.  Fails with
`unknownSeriesRef` when the ref was never registered, with
`exemplarLabelTooLong` when the summed label length exceeds the fixed
maximum, and with `invalidExemplar` when the exemplar's own label set has
duplicate names.  An exemplar field-for-field equal to the cached last
staged-or-committed exemplar for the ref is a silent no-op.  The spec stops
there, but the test `TestStorage_DuplicateExemplarsIgnored` (11 calls, 4
stored records) additionally requires that an exemplar whose timestamp is
lower than the cached exemplar's timestamp is also silently dropped; that
out-of-order drop is included here, with the test as the authority. -/
def appendExemplar (st : Storage) (a : Appender) (ref : Nat) (ex : Exemplar) :
    Except Err (Storage × Appender × Nat) :=
  if st.closed then .error .walClosed
  else if (findByRef st.registry ref).isSome then
    if maxExemplarLabelLength < exLabelLen ex.labels then
      .error .exemplarLabelTooLong
    else if nodupNames (ex.labels.map Label.name) then
      match lookupEx st.lastEx ref with
      | some prev =>
          if prev = ex ∨ ex.ts < prev.ts then .ok (st, a, ref)
          else
            .ok ({ st with lastEx := setEx st.lastEx ref ex },
              { a with pendingExemplars :=
                  a.pendingExemplars ++ [⟨ref, ex.ts, ex.value, ex.labels⟩] },
              ref)
      | none =>
          .ok ({ st with lastEx := setEx st.lastEx ref ex },
            { a with pendingExemplars :=
                a.pendingExemplars ++ [⟨ref, ex.ts, ex.value, ex.labels⟩] },
            ref)
    else .error .invalidExemplar
  else .error .unknownSeriesRef

/-- The durable record of a staged series. -/
def seriesRec (s : RefSeries) : Rec := .series s.ref s.labels

/-- The durable record of a staged sample. -/
def sampleRec (s : RefSample) : Rec := .sample s.ref s.t s.v

/-- The durable record of a staged exemplar. -/
def exemplarRec (e : RefExemplar) : Rec := .exemplar e.ref e.t e.v e.labels

/-- The durable record of a staged histogram observation. -/
def histRec (h : RefHistogram) : Rec := .histogram h.ref h.t h.h

/-- The durable record of a staged float-histogram observation. -/
def fhistRec (h : RefHistogram) : Rec := .fhistogram h.ref h.t h.h

/-- Modelled from the spec: §4.2 `commit()`: flushes all staged records to
the Segmented Log in the fixed order {series records, sample records,
exemplar records, histogram/float-histogram records} and on success updates
the Series Registry's `lastTimestamp` for every affected ref (per §3, on
every committed sample/exemplar/histogram). -/
def commit (st : Storage) (a : Appender) : Except Err Storage :=
  if st.closed then .error .walClosed
  else
    let st1 := { st with wal := st.wal
      ++ a.pendingSeries.map seriesRec
      ++ a.pendingSamples.map sampleRec
      ++ a.pendingExemplars.map exemplarRec
      ++ a.pendingHist.map histRec
      ++ a.pendingFHist.map fhistRec }
    let st2 := a.pendingSamples.foldl (fun s r => updateTimestamp s r.ref r.t) st1
    let st3 := a.pendingExemplars.foldl (fun s r => updateTimestamp s r.ref r.t) st2
    let st4 := a.pendingHist.foldl (fun s r => updateTimestamp s r.ref r.t) st3
    let st5 := a.pendingFHist.foldl (fun s r => updateTimestamp s r.ref r.t) st4
    .ok st5

/-- Modelled from the spec: §4.2 `rollback()`: flushes only the staged
SeriesRecords (so newly allocated refs remain valid) and discards all staged
sample/exemplar/histogram records without writing them. -/
def rollback (st : Storage) (a : Appender) : Except Err Storage :=
  if st.closed then .error .walClosed
  else .ok { st with wal := st.wal ++ a.pendingSeries.map seriesRec }

/-- The refs the Truncator retains: per §4.5, the series whose
`lastTimestamp >= minTimestamp`. -/
def keepRefs (st : Storage) (minTs : Int) : List Nat :=
  (st.registry.filter (fun e => decide (minTs ≤ e.lastTs))).map SeriesEntry.ref

/-- Modelled from the spec: §4.5, which records survive a truncation at
`minTs`: series records of retained refs, and data records at or above the
retention timestamp (the rewritten checkpoint "omits samples older than
minTimestamp"). -/
def keepRec (ks : List Nat) (minTs : Int) : Rec → Bool
  | .series r _ => ks.contains r
  | .sample _ t _ => decide (minTs ≤ t)
  | .exemplar _ t _ _ => decide (minTs ≤ t)
  | .histogram _ t _ => decide (minTs ≤ t)
  | .fhistogram _ t _ => decide (minTs ≤ t)
  | .tombstone _ => true

/-- Modelled from the spec: §4.5 `truncate(minTimestamp)`: a series with
`lastTimestamp < minTimestamp` has no retained data and is dropped (a
TombstoneRecord is emitted and the entry removed); retained series keep
their records, and the rewritten durable state omits data records older than
`minTimestamp`.  Fails with `walClosed` after the engine is closed. -/
def truncate (st : Storage) (minTs : Int) : Except Err Storage :=
  if st.closed then .error .walClosed
  else
    let ks := keepRefs st minTs
    let dropped := st.registry.filter (fun e => decide (e.lastTs < minTs))
    .ok { st with
      registry := st.registry.filter (fun e => decide (minTs ≤ e.lastTs)),
      wal := st.wal.filter (keepRec ks minTs)
        ++ dropped.map (fun e => Rec.tombstone e.ref) }

/-- Modelled from the spec: §4.6 `writeStalenessMarkers(cutoffFn)`: for each
known SeriesEntry whose `lastTimestamp <= cutoffFn()`, stage and commit a
synthetic sample at that timestamp carrying the reserved stale sentinel. -/
def writeStalenessMarkers (st : Storage) (cutoff : Int) : Except Err Storage :=
  if st.closed then .error .walClosed
  else
    let stale : List RefSample :=
      (st.registry.filter (fun e => decide (e.lastTs ≤ cutoff))).map
        (fun e => ⟨e.ref, e.lastTs, staleNaN⟩)
    commit st { emptyAppender with pendingSamples := stale }

/-- Modelled from the spec: §6 `Storage.close()`: stops the engine; later
operations fail fast with `walClosed`. -/
def closeStorage (st : Storage) : Storage := { st with closed := true }

/-- Modelled from the spec: §4.4 Replayer, one step per decoded Record: a
SeriesRecord registers the LabelSet at its carried ref (preserving the ref)
and raises the ref counter; a data record updates the corresponding entry's
`lastTimestamp`; a TombstoneRecord removes the entry if present. -/
def replayStep (st : Storage) : Rec → Storage
  | .series r ls =>
      let st' := if (findByRef st.registry r).isSome then st
        else { st with registry := st.registry ++ [⟨r, ls, 0⟩] }
      { st' with nextRef := max st.nextRef r }
  | .sample r t _ => updateTimestamp st r t
  | .exemplar r t _ _ => updateTimestamp st r t
  | .histogram r t _ => updateTimestamp st r t
  | .fhistogram r t _ => updateTimestamp st r t
  | .tombstone r =>
      { st with registry := st.registry.filter (fun e => decide (e.ref ≠ r)) }

/-- Modelled from the spec: §4.4, replaying the readable records of the
Segmented Log to reconstruct the Series Registry and ref counter before any
Appender is issued (per §9 the exemplar dedup cache may start empty). -/
def replayRecords (recs : List Rec) : Storage :=
  recs.foldl replayStep { freshStorage with wal := recs }

/-- Modelled from the spec: §4.3, one on-disk segment: either a sequence of
decodable records or unreadable / non-WAL garbage. -/
inductive Seg where
  | good (recs : List Rec)
  | corrupt

/-- Modelled from the spec: §4.3 tolerant replay: segments are read in
order; on encountering corrupt data, replay stops at that point and the
previously decoded records remain valid (the corrupt data is the end of
durable history). -/
def readSegs : List Seg → List Rec
  | [] => []
  | .good rs :: rest => rs ++ readSegs rest
  | .corrupt :: _ => []

/-- Modelled from the spec: §6 `openStorage(logDirectory)`: opens the log
directory, replays existing state, returns a ready-to-use engine; per §4.3
an unreadable or non-WAL file must not prevent initialization. -/
def openStorage (segs : List Seg) : Except Err Storage :=
  .ok (replayRecords (readSegs segs))

/-- Modelled from the spec: §6, closing the engine and reopening the same
log directory (the durable records are replayed). -/
def reopen (st : Storage) : Storage := replayRecords (closeStorage st).wal

/-- The series records visible to a replaying collector, in on-disk order
(mirroring `walDataCollector.series` of the test file). -/
def walSeries : List Rec → List RefSeries
  | [] => []
  | .series rf ls :: rest => ⟨rf, ls⟩ :: walSeries rest
  | _ :: rest => walSeries rest

/-- The sample records visible to a replaying collector, in on-disk order. -/
def walSamples : List Rec → List RefSample
  | [] => []
  | .sample rf t v :: rest => ⟨rf, t, v⟩ :: walSamples rest
  | _ :: rest => walSamples rest

/-- The exemplar records visible to a replaying collector, in on-disk
order. -/
def walExemplars : List Rec → List RefExemplar
  | [] => []
  | .exemplar rf t v ls :: rest => ⟨rf, t, v, ls⟩ :: walExemplars rest
  | _ :: rest => walExemplars rest

/-- The histogram records visible to a replaying collector. -/
def walHistograms : List Rec → List RefHistogram
  | [] => []
  | .histogram rf t h :: rest => ⟨rf, t, h⟩ :: walHistograms rest
  | _ :: rest => walHistograms rest

/-- The float-histogram records visible to a replaying collector. -/
def walFHistograms : List Rec → List RefHistogram
  | [] => []
  | .fhistogram rf t h :: rest => ⟨rf, t, h⟩ :: walFHistograms rest
  | _ :: rest => walFHistograms rest

/-- One series of a test payload, mirroring the `series` type of the test
file: a label set, samples as (timestamp, value) pairs, and exemplars. -/
structure SeriesSpec where
  labels : LabelSet
  samples : List (Int × Value)
  exemplars : List Exemplar
deriving DecidableEq

/-- Staging a list of samples against an already-obtained ref, mirroring the
`Append(*s.ref, ...)` loop of `series.Write` in the test file. -/
def runSamples (st : Storage) (a : Appender) (r : Nat) (ls : LabelSet) :
    List (Int × Value) → Except Err (Storage × Appender)
  | [] => .ok (st, a)
  | (t, v) :: rest =>
    match append st a r ls t v with
    | .error e => .error e
    | .ok (st', a', _) => runSamples st' a' r ls rest

/-- Staging a list of exemplars against a ref, mirroring the
`AppendExemplar(sRef, nil, exemplar)` loop of `series.Write`. -/
def runExemplars (st : Storage) (a : Appender) (r : Nat) :
    List Exemplar → Except Err (Storage × Appender)
  | [] => .ok (st, a)
  | e :: es =>
    match appendExemplar st a r e with
    | .error err => .error err
    | .ok (st', a', _) => runExemplars st' a' r es

/-- Staging one payload series, mirroring `series.Write` of the test file:
the first sample is appended with ref 0 to obtain the ref, the remaining
samples and the exemplars are appended against that ref. -/
def writeSpec (st : Storage) (a : Appender) (sp : SeriesSpec) :
    Except Err (Storage × Appender) :=
  match sp.samples with
  | [] => .ok (st, a)
  | (t, v) :: rest =>
    match append st a 0 sp.labels t v with
    | .error e => .error e
    | .ok (st1, a1, r) =>
      match runSamples st1 a1 r sp.labels rest with
      | .error e => .error e
      | .ok (st2, a2) => runExemplars st2 a2 r sp.exemplars

/-- Staging a whole payload (one transaction), series by series. -/
def runPayload (st : Storage) (a : Appender) :
    List SeriesSpec → Except Err (Storage × Appender)
  | [] => .ok (st, a)
  | sp :: rest =>
    match writeSpec st a sp with
    | .error e => .error e
    | .ok (st', a') => runPayload st' a' rest

/-- The whole transaction of the `TestStorage` scenario: stage a payload on
a fresh storage, then commit. -/
def runCommit (ps : List SeriesSpec) : Except Err Storage :=
  match runPayload freshStorage emptyAppender ps with
  | .error e => .error e
  | .ok (st, a) => commit st a

/-- Total extractor: the storage of a successful result, or a fresh storage
on error. -/
def okSt (x : Except Err Storage) : Storage :=
  match x with
  | .ok st => st
  | .error _ => freshStorage

/-- Total extractor: the WAL contents of a successful result. -/
def okWal (x : Except Err Storage) : List Rec :=
  match x with
  | .ok st => st.wal
  | .error _ => []

/-- Total extractor for a staging step: the resulting storage and appender,
or the unchanged inputs on error. -/
def okRun (st : Storage) (a : Appender)
    (x : Except Err (Storage × Appender)) : Storage × Appender :=
  match x with
  | .ok p => p
  | .error _ => (st, a)

/-- Total extractor for `append`: the resulting storage, appender and ref,
or the unchanged inputs and ref 0 on error. -/
def appendOut (st : Storage) (a : Appender) (ref : Nat) (ls : LabelSet)
    (t : Int) (v : Value) : Storage × Appender × Nat :=
  match append st a ref ls t v with
  | .ok x => x
  | .error _ => (st, a, 0)

/-- The exemplars actually staged by a sequence of `appendExemplar` calls
against one ref, given the cached last staged-or-committed exemplar: an
exemplar equal to the cache entry, or older than it, is dropped; any other
exemplar is kept and becomes the cache entry. -/
def keepExemplars (prev : Option Exemplar) : List Exemplar → List Exemplar
  | [] => []
  | e :: es =>
    match prev with
    | none => e :: keepExemplars (some e) es
    | some p =>
        if p = e ∨ e.ts < p.ts then keepExemplars (some p) es
        else e :: keepExemplars (some e) es

/-- The spec's own description of deduplication in §4.2, following the
spec's words only: "If the incoming exemplar is field-for-field equal to
that cache entry, the call is a silent no-op ... Otherwise it is staged and
becomes the new cache entry."  Kept separate from `keepExemplars` (which
follows the test file) so the two can be compared. -/
def dedupOnlyExemplars (prev : Option Exemplar) : List Exemplar → List Exemplar
  | [] => []
  | e :: es =>
    match prev with
    | none => e :: dedupOnlyExemplars (some e) es
    | some p =>
        if p = e then dedupOnlyExemplars (some p) es
        else e :: dedupOnlyExemplars (some e) es

/-- The number of maximal runs of consecutive field-equal exemplars in a
call sequence. -/
def runsCount : List Exemplar → Nat
  | [] => 0
  | [_] => 1
  | a :: b :: rest => (if a = b then 0 else 1) + runsCount (b :: rest)

/-- The staged exemplar record for a kept exemplar. -/
def mkRefEx (r : Nat) (e : Exemplar) : RefExemplar := ⟨r, e.ts, e.value, e.labels⟩

/-- The series records a payload is expected to stage, with refs allocated
monotonically from `k + 1` in registration order. -/
def expSeries (k : Nat) : List SeriesSpec → List RefSeries
  | [] => []
  | sp :: rest => ⟨k + 1, sp.labels⟩ :: expSeries (k + 1) rest

/-- The sample records a payload is expected to stage. -/
def expSamples (k : Nat) : List SeriesSpec → List RefSample
  | [] => []
  | sp :: rest =>
      sp.samples.map (fun tv => ⟨k + 1, tv.1, tv.2⟩) ++ expSamples (k + 1) rest

/-- The exemplar records a payload is expected to stage (those kept by the
per-ref cache). -/
def expExemplars (k : Nat) : List SeriesSpec → List RefExemplar
  | [] => []
  | sp :: rest =>
      (keepExemplars none sp.exemplars).map (mkRefEx (k + 1))
        ++ expExemplars (k + 1) rest

/-- The registry entries a payload is expected to create (timestamps are
only set at commit). -/
def newEntries (k : Nat) : List SeriesSpec → List SeriesEntry
  | [] => []
  | sp :: rest => ⟨k + 1, sp.labels, 0⟩ :: newEntries (k + 1) rest

/-- Insertion into a list sorted by the boolean relation `le`. -/
def insertLE {α : Type} (le : α → α → Bool) (x : α) : List α → List α
  | [] => [x]
  | y :: ys => if le x y then x :: y :: ys else y :: insertLE le x ys

/-- Insertion sort by the boolean relation `le`. -/
def sortLE {α : Type} (le : α → α → Bool) : List α → List α
  | [] => []
  | x :: xs => insertLE le x (sortLE le xs)

/-- The (ref, timestamp) order on sample records used by `byRefSample` in
the test file. -/
def sampleLE (a b : RefSample) : Bool :=
  decide (a.ref < b.ref) || (decide (a.ref = b.ref) && decide (a.t ≤ b.t))

/-- The (ref, timestamp) order on exemplar records used by `byRefExemplar`
in the test file. -/
def exemplarLE (a b : RefExemplar) : Bool :=
  decide (a.ref < b.ref) || (decide (a.ref = b.ref) && decide (a.t ≤ b.t))

/-- Sorting sample records by (ref, timestamp). -/
def sortSamples : List RefSample → List RefSample := sortLE sampleLE

/-- Sorting exemplar records by (ref, timestamp). -/
def sortExemplars : List RefExemplar → List RefExemplar := sortLE exemplarLE

/-- The largest signed 64-bit integer, `math.MaxInt64`, used by the test as
the "+infinity" staleness cutoff. -/
def maxInt64 : Int := 2 ^ 63 - 1

/-- The ref-counter contribution of one replayed record: per §4.4 only
series records raise the counter. -/
def refFold (n : Nat) : Rec → Nat
  | .series rf _ => max n rf
  | _ => n

/-- The three-series payload of the `TestStorage` scenario (`buildSeries`
with names foo, bar, baz; sample values are carried as bit patterns). -/
def samplePayload : List SeriesSpec :=
  [⟨[⟨"__name__", "foo"⟩], [(1, 10), (10, 100)],
      [⟨[⟨"foobar", "barfoo"⟩], 10, 1, true⟩, ⟨[⟨"lorem", "ipsum"⟩], 100, 10, true⟩]⟩,
    ⟨[⟨"__name__", "bar"⟩], [(2, 20), (20, 200)],
      [⟨[⟨"foobar", "barfoo"⟩], 20, 2, true⟩, ⟨[⟨"lorem", "ipsum"⟩], 200, 20, true⟩]⟩,
    ⟨[⟨"__name__", "baz"⟩], [(3, 30), (30, 300)],
      [⟨[⟨"foobar", "barfoo"⟩], 30, 3, true⟩, ⟨[⟨"lorem", "ipsum"⟩], 300, 30, true⟩]⟩]

/-- The eleven `AppendExemplar` calls of
`TestStorage_DuplicateExemplarsIgnored`, in order: two equal calls, then the
labels change (three calls), then the value changes (two calls), then the
timestamp moves to 25 (two calls), then the timestamp moves back to 24 (two
calls). -/
def exemplarCalls : List Exemplar :=
  [⟨[⟨"a", "1"⟩], 20, 10, true⟩, ⟨[⟨"a", "1"⟩], 20, 10, true⟩,
    ⟨[⟨"b", "2"⟩], 20, 10, true⟩, ⟨[⟨"b", "2"⟩], 20, 10, true⟩,
    ⟨[⟨"b", "2"⟩], 20, 10, true⟩,
    ⟨[⟨"b", "2"⟩], 42, 10, true⟩, ⟨[⟨"b", "2"⟩], 42, 10, true⟩,
    ⟨[⟨"b", "2"⟩], 42, 25, true⟩, ⟨[⟨"b", "2"⟩], 42, 25, true⟩,
    ⟨[⟨"b", "2"⟩], 42, 24, true⟩, ⟨[⟨"b", "2"⟩], 42, 24, true⟩]

/-- A two-series payload in which the series with the higher ref is the one
whose data is older: series "a" (ref 1) has its sample at timestamp 10,
series "b" (ref 2) at timestamp 1. -/
def truncPayload : List SeriesSpec :=
  [⟨[⟨"n", "a"⟩], [(10, 1)], []⟩, ⟨[⟨"n", "b"⟩], [(1, 2)], []⟩]

/-- A one-series payload whose only sample is at timestamp 0 while its
exemplar is at timestamp 10, so the exemplar alone keeps
`lastTimestamp = 10`. -/
def exTsPayload : List SeriesSpec :=
  [⟨[⟨"n", "a"⟩], [(0, 7)], [⟨[⟨"e", "x"⟩], 5, 10, true⟩]⟩]

/-- A storage with one registered series (ref 1) and an empty exemplar
cache. -/
def regStorage : Storage := ⟨[⟨1, [⟨"a", "1"⟩], 0⟩], 1, [], [], false⟩

/-- The exemplar cached for ref 1 in `cachedStorage`. -/
def cachedEx : Exemplar := ⟨[⟨"a", "1"⟩], 20, 10, true⟩

/-- An exemplar older than `cachedEx` (timestamp 5 < 10). -/
def olderEx : Exemplar := ⟨[⟨"a", "1"⟩], 20, 5, true⟩

/-- A storage with one registered series (ref 1) whose exemplar cache holds
`cachedEx`. -/
def cachedStorage : Storage :=
  ⟨[⟨1, [⟨"a", "1"⟩], 0⟩], 1, [], [(1, cachedEx)], false⟩

/-- The storage and appender after staging `samplePayload` on a fresh
storage, without committing (the `TestStorage_Rollback` shape). -/
def stagedRun : Storage × Appender :=
  okRun freshStorage emptyAppender (runPayload freshStorage emptyAppender samplePayload)

/-- The over-long exemplar of `TestStorage_InvalidSeries`: the summed label
length is 24 + 105 = 129 > 128. -/
def longTraceEx : Exemplar :=
  ⟨[⟨"a_somewhat_long_trace_id",
      "nYJSNtFrFTY37VR7mHzEE/LIDt7cdAQcuOzFajgmLDAdBSRHYPDzrxhMA4zz7el8naI/AoXFv9/e/G0vcETcIoNUi3OieeLfaIRQci2oa"⟩],
    0, 0, false⟩

/-- An exemplar whose own label set repeats the name "a". -/
def dupLabelEx : Exemplar := ⟨[⟨"a", "1"⟩, ⟨"a", "2"⟩], 0, 0, false⟩

/-- A storage with two live series whose last timestamps are 5 and 7. -/
def staleStorage : Storage :=
  ⟨[⟨1, [⟨"n", "a"⟩], 5⟩, ⟨2, [⟨"n", "b"⟩], 7⟩], 2,
    [Rec.series 1 [⟨"n", "a"⟩], Rec.sample 1 5 7], [], false⟩

/-- A log directory whose second segment is garbage. -/
def corruptSegs : List Seg :=
  [Seg.good [Rec.series 1 [⟨"a", "1"⟩], Rec.sample 1 3 7], Seg.corrupt]

/-- The stale-marker samples `writeStalenessMarkers` emits for the live
series of a storage: one per registry entry, at its last timestamp. -/
def staleSamples (st : Storage) : List RefSample :=
  st.registry.map (fun e => ⟨e.ref, e.lastTs, staleNaN⟩)

@[simp] theorem walSeries_nil : walSeries [] = [] := rfl

@[simp] theorem walSamples_nil : walSamples [] = [] := rfl

@[simp] theorem walExemplars_nil : walExemplars [] = [] := rfl

@[simp] theorem walHistograms_nil : walHistograms [] = [] := rfl

@[simp] theorem walFHistograms_nil : walFHistograms [] = [] := rfl

@[simp] theorem walSeries_append (l₁ l₂ : List Rec) :
    walSeries (l₁ ++ l₂) = walSeries l₁ ++ walSeries l₂ := by
  induction l₁ with
  | nil => simp
  | cons x xs ih => cases x <;> simp [walSeries, ih]

@[simp] theorem walSamples_append (l₁ l₂ : List Rec) :
    walSamples (l₁ ++ l₂) = walSamples l₁ ++ walSamples l₂ := by
  induction l₁ with
  | nil => simp
  | cons x xs ih => cases x <;> simp [walSamples, ih]

@[simp] theorem walExemplars_append (l₁ l₂ : List Rec) :
    walExemplars (l₁ ++ l₂) = walExemplars l₁ ++ walExemplars l₂ := by
  induction l₁ with
  | nil => simp
  | cons x xs ih => cases x <;> simp [walExemplars, ih]

@[simp] theorem walHistograms_append (l₁ l₂ : List Rec) :
    walHistograms (l₁ ++ l₂) = walHistograms l₁ ++ walHistograms l₂ := by
  induction l₁ with
  | nil => simp
  | cons x xs ih => cases x <;> simp [walHistograms, ih]

@[simp] theorem walFHistograms_append (l₁ l₂ : List Rec) :
    walFHistograms (l₁ ++ l₂) = walFHistograms l₁ ++ walFHistograms l₂ := by
  induction l₁ with
  | nil => simp
  | cons x xs ih => cases x <;> simp [walFHistograms, ih]

@[simp] theorem walSeries_map_seriesRec (l : List RefSeries) :
    walSeries (l.map seriesRec) = l := by
  induction l with
  | nil => simp
  | cons x xs ih => simp [walSeries, seriesRec, ih]

@[simp] theorem walSeries_map_sampleRec (l : List RefSample) :
    walSeries (l.map sampleRec) = [] := by
  induction l with
  | nil => simp
  | cons x xs ih => simp [walSeries, sampleRec, ih]

@[simp] theorem walSeries_map_exemplarRec (l : List RefExemplar) :
    walSeries (l.map exemplarRec) = [] := by
  induction l with
  | nil => simp
  | cons x xs ih => simp [walSeries, exemplarRec, ih]

@[simp] theorem walSeries_map_histRec (l : List RefHistogram) :
    walSeries (l.map histRec) = [] := by
  induction l with
  | nil => simp
  | cons x xs ih => simp [walSeries, histRec, ih]

@[simp] theorem walSeries_map_fhistRec (l : List RefHistogram) :
    walSeries (l.map fhistRec) = [] := by
  induction l with
  | nil => simp
  | cons x xs ih => simp [walSeries, fhistRec, ih]

@[simp] theorem walSamples_map_seriesRec (l : List RefSeries) :
    walSamples (l.map seriesRec) = [] := by
  induction l with
  | nil => simp
  | cons x xs ih => simp [walSamples, seriesRec, ih]

@[simp] theorem walSamples_map_sampleRec (l : List RefSample) :
    walSamples (l.map sampleRec) = l := by
  induction l with
  | nil => simp
  | cons x xs ih => simp [walSamples, sampleRec, ih]

@[simp] theorem walSamples_map_exemplarRec (l : List RefExemplar) :
    walSamples (l.map exemplarRec) = [] := by
  induction l with
  | nil => simp
  | cons x xs ih => simp [walSamples, exemplarRec, ih]

@[simp] theorem walSamples_map_histRec (l : List RefHistogram) :
    walSamples (l.map histRec) = [] := by
  induction l with
  | nil => simp
  | cons x xs ih => simp [walSamples, histRec, ih]

@[simp] theorem walSamples_map_fhistRec (l : List RefHistogram) :
    walSamples (l.map fhistRec) = [] := by
  induction l with
  | nil => simp
  | cons x xs ih => simp [walSamples, fhistRec, ih]

@[simp] theorem walExemplars_map_seriesRec (l : List RefSeries) :
    walExemplars (l.map seriesRec) = [] := by
  induction l with
  | nil => simp
  | cons x xs ih => simp [walExemplars, seriesRec, ih]

@[simp] theorem walExemplars_map_sampleRec (l : List RefSample) :
    walExemplars (l.map sampleRec) = [] := by
  induction l with
  | nil => simp
  | cons x xs ih => simp [walExemplars, sampleRec, ih]

@[simp] theorem walExemplars_map_exemplarRec (l : List RefExemplar) :
    walExemplars (l.map exemplarRec) = l := by
  induction l with
  | nil => simp
  | cons x xs ih => simp [walExemplars, exemplarRec, ih]

@[simp] theorem walExemplars_map_histRec (l : List RefHistogram) :
    walExemplars (l.map histRec) = [] := by
  induction l with
  | nil => simp
  | cons x xs ih => simp [walExemplars, histRec, ih]

@[simp] theorem walExemplars_map_fhistRec (l : List RefHistogram) :
    walExemplars (l.map fhistRec) = [] := by
  induction l with
  | nil => simp
  | cons x xs ih => simp [walExemplars, fhistRec, ih]

@[simp] theorem walHistograms_map_seriesRec (l : List RefSeries) :
    walHistograms (l.map seriesRec) = [] := by
  induction l with
  | nil => simp
  | cons x xs ih => simp [walHistograms, seriesRec, ih]

@[simp] theorem walHistograms_map_sampleRec (l : List RefSample) :
    walHistograms (l.map sampleRec) = [] := by
  induction l with
  | nil => simp
  | cons x xs ih => simp [walHistograms, sampleRec, ih]

@[simp] theorem walHistograms_map_exemplarRec (l : List RefExemplar) :
    walHistograms (l.map exemplarRec) = [] := by
  induction l with
  | nil => simp
  | cons x xs ih => simp [walHistograms, exemplarRec, ih]

@[simp] theorem walHistograms_map_histRec (l : List RefHistogram) :
    walHistograms (l.map histRec) = l := by
  induction l with
  | nil => simp
  | cons x xs ih => simp [walHistograms, histRec, ih]

@[simp] theorem walHistograms_map_fhistRec (l : List RefHistogram) :
    walHistograms (l.map fhistRec) = [] := by
  induction l with
  | nil => simp
  | cons x xs ih => simp [walHistograms, fhistRec, ih]

@[simp] theorem walFHistograms_map_seriesRec (l : List RefSeries) :
    walFHistograms (l.map seriesRec) = [] := by
  induction l with
  | nil => simp
  | cons x xs ih => simp [walFHistograms, seriesRec, ih]

@[simp] theorem walFHistograms_map_sampleRec (l : List RefSample) :
    walFHistograms (l.map sampleRec) = [] := by
  induction l with
  | nil => simp
  | cons x xs ih => simp [walFHistograms, sampleRec, ih]

@[simp] theorem walFHistograms_map_exemplarRec (l : List RefExemplar) :
    walFHistograms (l.map exemplarRec) = [] := by
  induction l with
  | nil => simp
  | cons x xs ih => simp [walFHistograms, exemplarRec, ih]

@[simp] theorem walFHistograms_map_histRec (l : List RefHistogram) :
    walFHistograms (l.map histRec) = [] := by
  induction l with
  | nil => simp
  | cons x xs ih => simp [walFHistograms, histRec, ih]

@[simp] theorem walFHistograms_map_fhistRec (l : List RefHistogram) :
    walFHistograms (l.map fhistRec) = l := by
  induction l with
  | nil => simp
  | cons x xs ih => simp [walFHistograms, fhistRec, ih]

@[simp] theorem walSeries_map_tombstone (l : List SeriesEntry) :
    walSeries (l.map (fun e => Rec.tombstone e.ref)) = [] := by
  induction l with
  | nil => simp
  | cons x xs ih => simp [walSeries, ih]

@[simp] theorem walSamples_map_tombstone (l : List SeriesEntry) :
    walSamples (l.map (fun e => Rec.tombstone e.ref)) = [] := by
  induction l with
  | nil => simp
  | cons x xs ih => simp [walSamples, ih]

@[simp] theorem walExemplars_map_tombstone (l : List SeriesEntry) :
    walExemplars (l.map (fun e => Rec.tombstone e.ref)) = [] := by
  induction l with
  | nil => simp
  | cons x xs ih => simp [walExemplars, ih]

@[simp] theorem updateTimestamp_wal (st : Storage) (r : Nat) (t : Int) :
    (updateTimestamp st r t).wal = st.wal := rfl

@[simp] theorem updateTimestamp_nextRef (st : Storage) (r : Nat) (t : Int) :
    (updateTimestamp st r t).nextRef = st.nextRef := rfl

@[simp] theorem updateTimestamp_closed (st : Storage) (r : Nat) (t : Int) :
    (updateTimestamp st r t).closed = st.closed := rfl

@[simp] theorem updateTimestamp_lastEx (st : Storage) (r : Nat) (t : Int) :
    (updateTimestamp st r t).lastEx = st.lastEx := rfl

@[simp] theorem foldl_updateTs_wal {β : Type} (f : β → Nat) (g : β → Int)
    (l : List β) (st : Storage) :
    (l.foldl (fun s b => updateTimestamp s (f b) (g b)) st).wal = st.wal := by
  induction l generalizing st with
  | nil => rfl
  | cons x xs ih => simp [List.foldl_cons, ih]

@[simp] theorem foldl_updateTs_nextRef {β : Type} (f : β → Nat) (g : β → Int)
    (l : List β) (st : Storage) :
    (l.foldl (fun s b => updateTimestamp s (f b) (g b)) st).nextRef = st.nextRef := by
  induction l generalizing st with
  | nil => rfl
  | cons x xs ih => simp [List.foldl_cons, ih]

@[simp] theorem foldl_updateTs_closed {β : Type} (f : β → Nat) (g : β → Int)
    (l : List β) (st : Storage) :
    (l.foldl (fun s b => updateTimestamp s (f b) (g b)) st).closed = st.closed := by
  induction l generalizing st with
  | nil => rfl
  | cons x xs ih => simp [List.foldl_cons, ih]

@[simp] theorem foldl_updateTs_lastEx {β : Type} (f : β → Nat) (g : β → Int)
    (l : List β) (st : Storage) :
    (l.foldl (fun s b => updateTimestamp s (f b) (g b)) st).lastEx = st.lastEx := by
  induction l generalizing st with
  | nil => rfl
  | cons x xs ih => simp [List.foldl_cons, ih]

/-- A successful `commit` appends exactly the staged records, in the fixed
order, and touches neither the ref counter nor the exemplar cache nor the
closed flag. -/
theorem commit_spec (st : Storage) (a : Appender) (h : st.closed = false) :
    (commit st a).isOk = true ∧
    (okSt (commit st a)).wal = st.wal
      ++ a.pendingSeries.map seriesRec
      ++ a.pendingSamples.map sampleRec
      ++ a.pendingExemplars.map exemplarRec
      ++ a.pendingHist.map histRec
      ++ a.pendingFHist.map fhistRec ∧
    (okSt (commit st a)).closed = false ∧
    (okSt (commit st a)).nextRef = st.nextRef ∧
    (okSt (commit st a)).lastEx = st.lastEx := by
  simp [commit, h, okSt, Except.isOk, Except.toBool]

/-- A successful `rollback` appends exactly the staged series records and
changes nothing else in the storage. -/
theorem rollback_spec (st : Storage) (a : Appender) (h : st.closed = false) :
    (rollback st a).isOk = true ∧
    (okSt (rollback st a)).wal = st.wal ++ a.pendingSeries.map seriesRec ∧
    (okSt (rollback st a)).registry = st.registry ∧
    (okSt (rollback st a)).closed = false ∧
    (okSt (rollback st a)).nextRef = st.nextRef := by
  simp [rollback, h, okSt, Except.isOk, Except.toBool]

@[simp] theorem lookupEx_setEx_self (m : List (Nat × Exemplar)) (r : Nat)
    (ex : Exemplar) : lookupEx (setEx m r ex) r = some ex := by
  induction m with
  | nil => simp [setEx, lookupEx]
  | cons p rest ih =>
      by_cases hp : p.1 = r <;> simp [setEx, lookupEx, hp, ih]

theorem mem_setEx (m : List (Nat × Exemplar)) (r : Nat) (ex : Exemplar)
    (q : Nat × Exemplar) (hq : q ∈ setEx m r ex) : q.1 = r ∨ q ∈ m := by
  induction m with
  | nil => simp [setEx] at hq; simp [hq]
  | cons p rest ih =>
      by_cases hp : p.1 = r
      · simp [setEx, hp] at hq
        rcases hq with hq | hq
        · left; simp [hq]
        · right; simp [hq]
      · simp [setEx, hp] at hq
        rcases hq with hq | hq
        · right; simp [hq]
        · rcases ih hq with h' | h'
          · left; exact h'
          · right; simp [h']

theorem lookupEx_none_of_gt (m : List (Nat × Exemplar)) (k r : Nat)
    (hb : ∀ p ∈ m, p.1 ≤ k) (hr : k < r) : lookupEx m r = none := by
  induction m with
  | nil => rfl
  | cons p rest ih =>
      have hp : p.1 ≤ k := hb p (by simp)
      have : p.1 ≠ r := by omega
      simp [lookupEx, this]
      exact ih (fun q hq => hb q (by simp [hq]))

@[simp] theorem findByLabels_append_none (reg : List SeriesEntry)
    (e : SeriesEntry) (ls : LabelSet) (h : findByLabels reg ls = none)
    (hne : e.labels ≠ ls) : findByLabels (reg ++ [e]) ls = none := by
  induction reg with
  | nil => simp [findByLabels, hne]
  | cons x xs ih =>
      by_cases hx : x.labels = ls
      · simp [findByLabels, hx] at h
      · simp [findByLabels, hx] at h ⊢
        exact ih h

theorem findByLabels_append_last (reg : List SeriesEntry) (e : SeriesEntry)
    (h : findByLabels reg e.labels = none) :
    findByLabels (reg ++ [e]) e.labels = some e := by
  induction reg with
  | nil => simp [findByLabels]
  | cons x xs ih =>
      by_cases hx : x.labels = e.labels
      · simp [findByLabels, hx] at h
      · simp [findByLabels, hx] at h ⊢
        exact ih h

theorem findByLabels_none_of_ne (reg : List SeriesEntry) (ls : LabelSet)
    (h : ∀ e ∈ reg, e.labels ≠ ls) : findByLabels reg ls = none := by
  induction reg with
  | nil => rfl
  | cons x xs ih =>
      have hx : x.labels ≠ ls := h x (by simp)
      simp [findByLabels, hx]
      exact ih (fun e he => h e (by simp [he]))

theorem findByRef_append_last (reg : List SeriesEntry) (e : SeriesEntry)
    (h : ∀ x ∈ reg, x.ref ≠ e.ref) :
    findByRef (reg ++ [e]) e.ref = some e := by
  induction reg with
  | nil => simp [findByRef]
  | cons x xs ih =>
      have hx : x.ref ≠ e.ref := h x (by simp)
      simp [findByRef, hx]
      exact ih (fun y hy => h y (by simp [hy]))

/-- Calling `append` with `ref = 0` on a fresh label set allocates `nextRef + 1`,
extends the registry and stages a series record and a sample record. -/
theorem append_new (st : Storage) (a : Appender) (ls : LabelSet) (t : Int)
    (v : Value) (h : st.closed = false) (hv : lsetValid ls = true)
    (hf : findByLabels st.registry ls = none) :
    append st a 0 ls t v = .ok
      ({ st with
          registry := st.registry ++ [⟨st.nextRef + 1, ls, 0⟩],
          nextRef := st.nextRef + 1 },
        { a with
            pendingSeries := a.pendingSeries ++ [⟨st.nextRef + 1, ls⟩],
            pendingSamples := a.pendingSamples ++ [⟨st.nextRef + 1, t, v⟩] },
        st.nextRef + 1) := by
  simp [append, h, hv, hf]

/-- Calling `append` with a non-zero ref stages a sample record directly and leaves
the storage unchanged. -/
theorem append_fast (st : Storage) (a : Appender) (r : Nat) (ls : LabelSet)
    (t : Int) (v : Value) (h : st.closed = false) (hr : r ≠ 0) :
    append st a r ls t v = .ok
      (st, { a with pendingSamples := a.pendingSamples ++ [⟨r, t, v⟩] }, r) := by
  simp [append, h, hr]

/-- Staging a sample list against an already-obtained non-zero ref never
fails and only extends the staged samples. -/
theorem runSamples_spec (ss : List (Int × Value)) :
    ∀ (st : Storage) (a : Appender) (r : Nat) (ls : LabelSet),
    st.closed = false → r ≠ 0 →
    runSamples st a r ls ss = .ok
      (st, { a with pendingSamples :=
        a.pendingSamples ++ ss.map (fun tv => ⟨r, tv.1, tv.2⟩) }) := by
  induction ss with
  | nil =>
      intro st a r ls h hr
      cases a
      simp [runSamples]
  | cons tv rest ih =>
      intro st a r ls h hr
      cases tv with
      | mk t v =>
          rw [runSamples, append_fast st a r ls t v h hr]
          show runSamples st
            { a with pendingSamples := a.pendingSamples ++ [⟨r, t, v⟩] } r ls rest = _
          rw [ih st { a with pendingSamples := a.pendingSamples ++ [⟨r, t, v⟩] } r ls h hr]
          simp

/-- Calling `appendExemplar` on a registered ref with valid labels is a silent no-op
when the incoming exemplar equals the cached one or is older than it. -/
theorem appendExemplar_skip (st : Storage) (a : Appender) (r : Nat)
    (e prev : Exemplar) (h : st.closed = false)
    (hreg : (findByRef st.registry r).isSome = true) (hok : exOk e = true)
    (hc : lookupEx st.lastEx r = some prev) (hd : prev = e ∨ e.ts < prev.ts) :
    appendExemplar st a r e = .ok (st, a, r) := by
  have hparts := (Bool.and_eq_true _ _).mp hok
  have hlen : ¬ (maxExemplarLabelLength < exLabelLen e.labels) := by
    simpa [Nat.not_lt] using of_decide_eq_true hparts.1
  simp [appendExemplar, h, hreg, hc, hd, hlen, hparts.2]

/-- Calling `appendExemplar` on a registered ref with valid labels and an empty
cache entry stages the exemplar and caches it. -/
theorem appendExemplar_stage_none (st : Storage) (a : Appender) (r : Nat)
    (e : Exemplar) (h : st.closed = false)
    (hreg : (findByRef st.registry r).isSome = true) (hok : exOk e = true)
    (hc : lookupEx st.lastEx r = none) :
    appendExemplar st a r e = .ok
      ({ st with lastEx := setEx st.lastEx r e },
        { a with pendingExemplars := a.pendingExemplars ++ [mkRefEx r e] }, r) := by
  have hparts := (Bool.and_eq_true _ _).mp hok
  have hlen : ¬ (maxExemplarLabelLength < exLabelLen e.labels) := by
    simpa [Nat.not_lt] using of_decide_eq_true hparts.1
  simp [appendExemplar, h, hreg, hc, hlen, hparts.2, mkRefEx]

/-- Calling `appendExemplar` on a registered ref with valid labels stages the
exemplar when it differs from the cached one and is not older than it. -/
theorem appendExemplar_stage_some (st : Storage) (a : Appender) (r : Nat)
    (e prev : Exemplar) (h : st.closed = false)
    (hreg : (findByRef st.registry r).isSome = true) (hok : exOk e = true)
    (hc : lookupEx st.lastEx r = some prev)
    (hd : ¬ (prev = e ∨ e.ts < prev.ts)) :
    appendExemplar st a r e = .ok
      ({ st with lastEx := setEx st.lastEx r e },
        { a with pendingExemplars := a.pendingExemplars ++ [mkRefEx r e] }, r) := by
  have hparts := (Bool.and_eq_true _ _).mp hok
  have hlen : ¬ (maxExemplarLabelLength < exLabelLen e.labels) := by
    simpa [Nat.not_lt] using of_decide_eq_true hparts.1
  simp [appendExemplar, h, hreg, hc, hd, hlen, hparts.2, mkRefEx]

/-- Staging an exemplar list against a registered ref never fails; it stages
exactly the exemplars kept by the per-ref cache (`keepExemplars`), starting
from the cached last staged-or-committed exemplar, and touches nothing but
the cache and the staged exemplar list. -/
theorem runExemplars_spec (es : List Exemplar) :
    ∀ (st : Storage) (a : Appender) (r : Nat),
    st.closed = false →
    (findByRef st.registry r).isSome = true →
    (∀ e ∈ es, exOk e = true) →
    ∃ st', runExemplars st a r es = .ok
        (st', { a with pendingExemplars := a.pendingExemplars
          ++ (keepExemplars (lookupEx st.lastEx r) es).map (mkRefEx r) }) ∧
      st'.registry = st.registry ∧ st'.wal = st.wal ∧
      st'.closed = false ∧ st'.nextRef = st.nextRef ∧
      (∀ p ∈ st'.lastEx, p.1 = r ∨ p ∈ st.lastEx) := by
  induction es with
  | nil =>
      intro st a r h hreg hok
      refine ⟨st, ?_, rfl, rfl, h, rfl, fun p hp => Or.inr hp⟩
      cases a
      simp [runExemplars, keepExemplars]
  | cons e es ih =>
      intro st a r h hreg hok
      have hoke : exOk e = true := hok e (by simp)
      have hrest : ∀ x ∈ es, exOk x = true := fun x hx => hok x (by simp [hx])
      cases hcache : lookupEx st.lastEx r with
      | none =>
          rw [runExemplars, appendExemplar_stage_none st a r e h hreg hoke hcache]
          obtain ⟨st', hrun, hreg', hwal', hcl', hnr', hex'⟩ :=
            ih { st with lastEx := setEx st.lastEx r e }
              { a with pendingExemplars := a.pendingExemplars ++ [mkRefEx r e] }
              r h hreg hrest
          refine ⟨st', ?_, hreg', hwal', hcl', hnr', ?_⟩
          · exact hrun.trans (by simp [hcache, keepExemplars])
          · intro p hp
            rcases hex' p hp with h' | h'
            · exact Or.inl h'
            · rcases mem_setEx st.lastEx r e p h' with h'' | h''
              · exact Or.inl h''
              · exact Or.inr h''
      | some prev =>
          by_cases hdup : prev = e ∨ e.ts < prev.ts
          · rw [runExemplars, appendExemplar_skip st a r e prev h hreg hoke hcache hdup]
            obtain ⟨st', hrun, hreg', hwal', hcl', hnr', hex'⟩ := ih st a r h hreg hrest
            refine ⟨st', ?_, hreg', hwal', hcl', hnr', hex'⟩
            exact hrun.trans (by simp [hcache, keepExemplars, hdup])
          · rw [runExemplars, appendExemplar_stage_some st a r e prev h hreg hoke hcache hdup]
            obtain ⟨st', hrun, hreg', hwal', hcl', hnr', hex'⟩ :=
              ih { st with lastEx := setEx st.lastEx r e }
                { a with pendingExemplars := a.pendingExemplars ++ [mkRefEx r e] }
                r h hreg hrest
            refine ⟨st', ?_, hreg', hwal', hcl', hnr', ?_⟩
            · exact hrun.trans (by simp [hcache, keepExemplars, hdup])
            · intro p hp
              rcases hex' p hp with h' | h'
              · exact Or.inl h'
              · rcases mem_setEx st.lastEx r e p h' with h'' | h''
                · exact Or.inl h''
                · exact Or.inr h''

/-- Staging one payload series on a storage with ref counter `k` succeeds,
allocates ref `k + 1`, extends the registry by one entry, and stages one
series record, the series' samples, and the exemplars kept by the cache. -/
theorem writeSpec_spec (sp : SeriesSpec) (st : Storage) (a : Appender) (k : Nat)
    (hc : st.closed = false) (hk : st.nextRef = k)
    (hreg : ∀ e ∈ st.registry, e.ref ≤ k)
    (hex : ∀ p ∈ st.lastEx, p.1 ≤ k)
    (hv : lsetValid sp.labels = true)
    (hs : sp.samples ≠ [])
    (he : ∀ ex ∈ sp.exemplars, exOk ex = true)
    (hf : findByLabels st.registry sp.labels = none) :
    ∃ st' a', writeSpec st a sp = .ok (st', a') ∧
      st'.closed = false ∧ st'.nextRef = k + 1 ∧ st'.wal = st.wal ∧
      st'.registry = st.registry ++ [⟨k + 1, sp.labels, 0⟩] ∧
      (∀ e ∈ st'.registry, e.ref ≤ k + 1) ∧
      (∀ p ∈ st'.lastEx, p.1 ≤ k + 1) ∧
      a'.pendingSeries = a.pendingSeries ++ [⟨k + 1, sp.labels⟩] ∧
      a'.pendingSamples = a.pendingSamples
        ++ sp.samples.map (fun tv => ⟨k + 1, tv.1, tv.2⟩) ∧
      a'.pendingExemplars = a.pendingExemplars
        ++ (keepExemplars none sp.exemplars).map (mkRefEx (k + 1)) ∧
      a'.pendingHist = a.pendingHist ∧ a'.pendingFHist = a.pendingFHist := by
  subst hk
  obtain ⟨t, v, rest, hsamp⟩ : ∃ t v rest, sp.samples = (t, v) :: rest := by
    cases hsp : sp.samples with
    | nil => exact absurd hsp hs
    | cons tv r => exact ⟨tv.1, tv.2, r, rfl⟩
  have hfind : findByRef (st.registry ++ [⟨st.nextRef + 1, sp.labels, 0⟩])
      (st.nextRef + 1) = some ⟨st.nextRef + 1, sp.labels, 0⟩ :=
    findByRef_append_last st.registry ⟨st.nextRef + 1, sp.labels, 0⟩
      (fun x hx => by
        have hxr := hreg x hx
        show x.ref ≠ st.nextRef + 1
        omega)
  have hnone : lookupEx st.lastEx (st.nextRef + 1) = none :=
    lookupEx_none_of_gt st.lastEx st.nextRef (st.nextRef + 1) hex (Nat.lt_succ_self _)
  have hw1 : writeSpec st a sp = runExemplars
      { st with
        registry := st.registry ++ [⟨st.nextRef + 1, sp.labels, 0⟩],
        nextRef := st.nextRef + 1 }
      { a with
          pendingSeries := a.pendingSeries ++ [⟨st.nextRef + 1, sp.labels⟩],
          pendingSamples := a.pendingSamples ++ [⟨st.nextRef + 1, t, v⟩]
            ++ rest.map (fun tv => ⟨st.nextRef + 1, tv.1, tv.2⟩) }
      (st.nextRef + 1) sp.exemplars := by
    simp only [writeSpec, hsamp, append_new st a sp.labels t v hc hv hf,
      runSamples_spec rest
        { st with
          registry := st.registry ++ [⟨st.nextRef + 1, sp.labels, 0⟩],
          nextRef := st.nextRef + 1 }
        { a with
            pendingSeries := a.pendingSeries ++ [⟨st.nextRef + 1, sp.labels⟩],
            pendingSamples := a.pendingSamples ++ [⟨st.nextRef + 1, t, v⟩] }
        (st.nextRef + 1) sp.labels hc (Nat.succ_ne_zero _)]
  obtain ⟨stF, hrun, hregF, hwalF, hclF, hnrF, hexF⟩ :=
    runExemplars_spec sp.exemplars
      { st with
        registry := st.registry ++ [⟨st.nextRef + 1, sp.labels, 0⟩],
        nextRef := st.nextRef + 1 }
      { a with
          pendingSeries := a.pendingSeries ++ [⟨st.nextRef + 1, sp.labels⟩],
          pendingSamples := a.pendingSamples ++ [⟨st.nextRef + 1, t, v⟩]
            ++ rest.map (fun tv => ⟨st.nextRef + 1, tv.1, tv.2⟩) }
      (st.nextRef + 1) hc (by simp [hfind]) he
  refine ⟨stF, _, hw1.trans hrun, hclF, hnrF, hwalF, hregF, ?_, ?_, rfl, ?_, ?_, rfl, rfl⟩
  · intro e hejoin
    rw [hregF] at hejoin
    rcases List.mem_append.mp hejoin with h' | h'
    · have := hreg e h'
      omega
    · simp at h'
      simp [h']
  · intro p hp
    rcases hexF p hp with h' | h'
    · omega
    · have := hex p h'
      omega
  · simp [hsamp]
  · simp [hnone]

/-- Staging a payload of fresh, valid, pairwise-distinct series on a storage
with ref counter `k` succeeds and stages exactly the expected series, sample
and exemplar records, with refs `k + 1, k + 2, ...` in registration
order. -/
theorem runPayload_spec (ps : List SeriesSpec) :
    ∀ (st : Storage) (a : Appender) (k : Nat),
    st.closed = false → st.nextRef = k →
    (∀ e ∈ st.registry, e.ref ≤ k) →
    (∀ p ∈ st.lastEx, p.1 ≤ k) →
    (∀ sp ∈ ps, lsetValid sp.labels = true) →
    (∀ sp ∈ ps, sp.samples ≠ []) →
    (∀ sp ∈ ps, ∀ ex ∈ sp.exemplars, exOk ex = true) →
    List.Pairwise (fun x y => x.labels ≠ y.labels) ps →
    (∀ sp ∈ ps, findByLabels st.registry sp.labels = none) →
    ∃ st' a', runPayload st a ps = .ok (st', a') ∧
      st'.closed = false ∧ st'.nextRef = k + ps.length ∧ st'.wal = st.wal ∧
      st'.registry = st.registry ++ newEntries k ps ∧
      (∀ e ∈ st'.registry, e.ref ≤ k + ps.length) ∧
      (∀ p ∈ st'.lastEx, p.1 ≤ k + ps.length) ∧
      a'.pendingSeries = a.pendingSeries ++ expSeries k ps ∧
      a'.pendingSamples = a.pendingSamples ++ expSamples k ps ∧
      a'.pendingExemplars = a.pendingExemplars ++ expExemplars k ps ∧
      a'.pendingHist = a.pendingHist ∧ a'.pendingFHist = a.pendingFHist := by
  induction ps with
  | nil =>
      intro st a k hc hk hreg hex _ _ _ _ _
      refine ⟨st, a, ?_, hc, ?_, rfl, ?_, ?_, ?_, ?_, ?_, ?_, rfl, rfl⟩
      · simp [runPayload]
      · simpa using hk
      · simp [newEntries]
      · simpa using hreg
      · simpa using hex
      · simp [expSeries]
      · simp [expSamples]
      · simp [expExemplars]
  | cons sp rest ih =>
      intro st a k hc hk hreg hex hv hs he hp hf
      obtain ⟨st1, a1, hw, hc1, hk1, hwal1, hreg1, hregb1, hexb1, hps1, hpsamp1,
        hpex1, hph1, hpf1⟩ :=
        writeSpec_spec sp st a k hc hk (by
            intro e he'
            exact hreg e he') hex (hv sp (by simp)) (hs sp (by simp))
          (he sp (by simp)) (hf sp (by simp))
      have hregb1' : ∀ e ∈ st1.registry, e.ref ≤ k + 1 := hregb1
      have hf' : ∀ sq ∈ rest, findByLabels st1.registry sq.labels = none := by
        intro sq hsq
        rw [hreg1]
        refine findByLabels_append_none st.registry ⟨k + 1, sp.labels, 0⟩ sq.labels
          (hf sq (by simp [hsq])) ?_
        have hne : sp.labels ≠ sq.labels := (List.pairwise_cons.mp hp).1 sq hsq
        simpa using hne
      obtain ⟨st2, a2, hr, hc2, hk2, hwal2, hreg2, hregb2, hexb2, hps2, hpsamp2,
        hpex2, hph2, hpf2⟩ :=
        ih st1 a1 (k + 1) hc1 hk1 hregb1' hexb1
          (fun sq hq => hv sq (by simp [hq]))
          (fun sq hq => hs sq (by simp [hq]))
          (fun sq hq => he sq (by simp [hq]))
          (List.pairwise_cons.mp hp).2 hf'
      refine ⟨st2, a2, ?_, hc2, ?_, ?_, ?_, ?_, ?_, ?_, ?_, ?_, ?_, ?_⟩
      · rw [runPayload, hw]
        exact hr
      · simp only [List.length_cons]
        omega
      · exact hwal2.trans hwal1
      · rw [hreg2, hreg1]
        simp [newEntries]
      · intro e he'
        have hb := hregb2 e he'
        simp only [List.length_cons]
        omega
      · intro p hp'
        have hb := hexb2 p hp'
        simp only [List.length_cons]
        omega
      · rw [hps2, hps1]
        simp [expSeries]
      · rw [hpsamp2, hpsamp1]
        simp [expSamples]
      · rw [hpex2, hpex1]
        simp [expExemplars]
      · exact hph2.trans hph1
      · exact hpf2.trans hpf1

theorem okWal_eq (x : Except Err Storage) : okWal x = (okSt x).wal := by
  cases x <;> rfl

@[simp] theorem expSeries_length (ps : List SeriesSpec) :
    ∀ k, (expSeries k ps).length = ps.length := by
  induction ps with
  | nil => intro k; rfl
  | cons sp rest ih => intro k; simp [expSeries, ih]

/-- The whole `TestStorage` transaction on a fresh storage: staging a fresh,
valid, pairwise-distinct payload and committing succeeds, and the WAL then
holds exactly the expected series, sample and exemplar records, in the fixed
commit order. -/
theorem runCommit_spec (ps : List SeriesSpec)
    (hv : ∀ sp ∈ ps, lsetValid sp.labels = true)
    (hs : ∀ sp ∈ ps, sp.samples ≠ [])
    (he : ∀ sp ∈ ps, ∀ ex ∈ sp.exemplars, exOk ex = true)
    (hp : List.Pairwise (fun x y => x.labels ≠ y.labels) ps) :
    (runCommit ps).isOk = true ∧
    (okSt (runCommit ps)).wal = (expSeries 0 ps).map seriesRec
      ++ (expSamples 0 ps).map sampleRec
      ++ (expExemplars 0 ps).map exemplarRec ∧
    (okSt (runCommit ps)).closed = false ∧
    (okSt (runCommit ps)).nextRef = ps.length := by
  obtain ⟨st', a', hrun, hc', hk', hwal', hreg', hregb', hexb', hps', hpsamp',
    hpex', hph', hpf'⟩ :=
    runPayload_spec ps freshStorage emptyAppender 0 rfl rfl
      (by simp [freshStorage]) (by simp [freshStorage]) hv hs he hp
      (fun sp hsp => rfl)
  have hrc : runCommit ps = commit st' a' := by
    rw [runCommit, hrun]
  rw [hrc]
  have hcsp := commit_spec st' a' hc'
  refine ⟨hcsp.1, ?_, hcsp.2.2.1, ?_⟩
  · rw [hcsp.2.1, hwal', hps', hpsamp', hpex', hph', hpf']
    simp [freshStorage, emptyAppender]
  · rw [hcsp.2.2.2.1, hk']
    simp

theorem replayStep_nextRef (st : Storage) (r : Rec) :
    (replayStep st r).nextRef = refFold st.nextRef r := by
  cases r <;> simp [replayStep, refFold]

theorem replayStep_closed (st : Storage) (r : Rec) :
    (replayStep st r).closed = st.closed := by
  cases r <;> simp [replayStep, apply_ite Storage.closed]

theorem foldl_replayStep_nextRef (recs : List Rec) :
    ∀ st : Storage, (recs.foldl replayStep st).nextRef = recs.foldl refFold st.nextRef := by
  induction recs with
  | nil => intro st; rfl
  | cons r rest ih =>
      intro st
      rw [List.foldl_cons, List.foldl_cons, ih, replayStep_nextRef]

theorem foldl_replayStep_closed (recs : List Rec) :
    ∀ st : Storage, (recs.foldl replayStep st).closed = st.closed := by
  induction recs with
  | nil => intro st; rfl
  | cons r rest ih =>
      intro st
      rw [List.foldl_cons, ih, replayStep_closed]

@[simp] theorem foldl_refFold_sampleRecs (l : List RefSample) :
    ∀ n, (l.map sampleRec).foldl refFold n = n := by
  induction l with
  | nil => intro n; rfl
  | cons x xs ih => intro n; simp [sampleRec, refFold, ih]

@[simp] theorem foldl_refFold_exemplarRecs (l : List RefExemplar) :
    ∀ n, (l.map exemplarRec).foldl refFold n = n := by
  induction l with
  | nil => intro n; rfl
  | cons x xs ih => intro n; simp [exemplarRec, refFold, ih]

theorem foldl_refFold_expSeries (ps : List SeriesSpec) :
    ∀ k, ((expSeries k ps).map seriesRec).foldl refFold k = k + ps.length := by
  induction ps with
  | nil => intro k; rfl
  | cons sp rest ih =>
      intro k
      have hmax : max k (k + 1) = k + 1 := by omega
      simp [expSeries, seriesRec, refFold, hmax, ih (k + 1)]
      omega

theorem expSeries_refs (ps : List SeriesSpec) :
    ∀ k, (expSeries k ps).map RefSeries.ref = List.range' (k + 1) ps.length := by
  induction ps with
  | nil => intro k; rfl
  | cons sp rest ih =>
      intro k
      simp [expSeries, List.range'_succ, ih (k + 1)]

theorem replayRecords_nextRef (recs : List Rec) :
    (replayRecords recs).nextRef = recs.foldl refFold 0 := by
  rw [replayRecords, foldl_replayStep_nextRef]
  rfl

theorem replayRecords_closed (recs : List Rec) :
    (replayRecords recs).closed = false := by
  rw [replayRecords, foldl_replayStep_closed]
  rfl

/-- Calling `append` with `ref = 0` on a label set already registered returns the
existing ref and stages only a sample record. -/
theorem append_found (st : Storage) (a : Appender) (ls : LabelSet) (t : Int)
    (v : Value) (e : SeriesEntry) (h : st.closed = false)
    (hv : lsetValid ls = true) (hfind : findByLabels st.registry ls = some e) :
    append st a 0 ls t v = .ok
      (st, { a with pendingSamples := a.pendingSamples ++ [⟨e.ref, t, v⟩] }, e.ref) := by
  simp [append, h, hv, hfind]

/-- C1: every transaction that appends N fresh series — valid, pairwise
distinct label sets, each with at least one sample, samples at distinct
timestamps, valid exemplars — and then commits leaves a WAL whose replay
yields exactly the N series records in the original registration order, and
whose sample records, sorted by (ref, timestamp), are exactly the appended
(ref, timestamp, value) triples. -/
theorem commit_replay_fidelity (ps : List SeriesSpec)
    (hv : ∀ sp ∈ ps, lsetValid sp.labels = true)
    (hs : ∀ sp ∈ ps, sp.samples ≠ [])
    (_hts : ∀ sp ∈ ps, List.Pairwise (fun x y => x.1 ≠ y.1) sp.samples)
    (he : ∀ sp ∈ ps, ∀ ex ∈ sp.exemplars, exOk ex = true)
    (hp : List.Pairwise (fun x y => x.labels ≠ y.labels) ps) :
    (runCommit ps).isOk = true ∧
    walSeries (okWal (runCommit ps)) = expSeries 0 ps ∧
    (walSeries (okWal (runCommit ps))).length = ps.length ∧
    walSamples (okWal (runCommit ps)) = expSamples 0 ps ∧
    sortSamples (walSamples (okWal (runCommit ps)))
      = sortSamples (expSamples 0 ps) := by
  obtain ⟨hok, hwal, hcl, hnr⟩ := runCommit_spec ps hv hs he hp
  rw [okWal_eq, hwal]
  refine ⟨hok, ?_, ?_, ?_, ?_⟩ <;> simp

/-- C1 witness: the three-series `TestStorage` payload. -/
theorem commit_replay_fidelity_witness :
    (runCommit samplePayload).isOk = true ∧
    walSeries (okWal (runCommit samplePayload)) = expSeries 0 samplePayload ∧
    (walSeries (okWal (runCommit samplePayload))).length = samplePayload.length ∧
    walSamples (okWal (runCommit samplePayload)) = expSamples 0 samplePayload ∧
    sortSamples (walSamples (okWal (runCommit samplePayload)))
      = sortSamples (expSamples 0 samplePayload) :=
  commit_replay_fidelity samplePayload (by decide) (by decide) (by decide)
    (by decide) (by decide)

/-- C10: replay fidelity extends to exemplars: after a successful commit the
replayed exemplar records are exactly the staged ones (after the per-ref
dedup cache), field for field, also once both sides are sorted by
(ref, timestamp). -/
theorem exemplar_replay_fidelity (ps : List SeriesSpec)
    (hv : ∀ sp ∈ ps, lsetValid sp.labels = true)
    (hs : ∀ sp ∈ ps, sp.samples ≠ [])
    (he : ∀ sp ∈ ps, ∀ ex ∈ sp.exemplars, exOk ex = true)
    (hp : List.Pairwise (fun x y => x.labels ≠ y.labels) ps) :
    (runCommit ps).isOk = true ∧
    walExemplars (okWal (runCommit ps)) = expExemplars 0 ps ∧
    sortExemplars (walExemplars (okWal (runCommit ps)))
      = sortExemplars (expExemplars 0 ps) := by
  obtain ⟨hok, hwal, hcl, hnr⟩ := runCommit_spec ps hv hs he hp
  rw [okWal_eq, hwal]
  refine ⟨hok, ?_, ?_⟩ <;> simp

/-- C10 witness: the three-series `TestStorage` payload. -/
theorem exemplar_replay_fidelity_witness :
    (runCommit samplePayload).isOk = true ∧
    walExemplars (okWal (runCommit samplePayload)) = expExemplars 0 samplePayload ∧
    sortExemplars (walExemplars (okWal (runCommit samplePayload)))
      = sortExemplars (expExemplars 0 samplePayload) :=
  exemplar_replay_fidelity samplePayload (by decide) (by decide) (by decide)
    (by decide)

/-- C2 (amended): SeriesRef assignment is a stable injection — appending
twice with ref 0 and an equal label set returns the same ref; a fresh
payload is assigned refs 1, 2, ..., N in registration order (monotone from
1, pairwise distinct); and after closing and reopening a directory whose WAL
still holds every allocated series record (a commit-only history, with no
lossy truncation before the restart), the reconstructed `nextRef` equals the
count of all refs ever allocated, so no ref is reused across that
restart. -/
theorem seriesRef_assignment_props :
    (∀ (st : Storage) (a : Appender) (ls : LabelSet) (t t' : Int) (v v' : Value),
      st.closed = false → lsetValid ls = true →
      (append st a 0 ls t v).isOk = true ∧
      (append (appendOut st a 0 ls t v).1 (appendOut st a 0 ls t v).2.1
        0 ls t' v').isOk = true ∧
      (appendOut (appendOut st a 0 ls t v).1 (appendOut st a 0 ls t v).2.1
        0 ls t' v').2.2 = (appendOut st a 0 ls t v).2.2) ∧
    (∀ ps : List SeriesSpec,
      (∀ sp ∈ ps, lsetValid sp.labels = true) →
      (∀ sp ∈ ps, sp.samples ≠ []) →
      (∀ sp ∈ ps, ∀ ex ∈ sp.exemplars, exOk ex = true) →
      List.Pairwise (fun x y => x.labels ≠ y.labels) ps →
      (walSeries (okWal (runCommit ps))).map RefSeries.ref
        = List.range' 1 ps.length ∧
      ((walSeries (okWal (runCommit ps))).map RefSeries.ref).Nodup ∧
      (reopen (okSt (runCommit ps))).nextRef = ps.length) := by
  constructor
  · intro st a ls t t' v v' hc hv
    cases hfind : findByLabels st.registry ls with
    | some e =>
        have h1 := append_found st a ls t v e hc hv hfind
        have hout : appendOut st a 0 ls t v
            = (st, { a with pendingSamples := a.pendingSamples ++ [⟨e.ref, t, v⟩] }, e.ref) := by
          simp [appendOut, h1]
        have h2 := append_found st
          { a with pendingSamples := a.pendingSamples ++ [⟨e.ref, t, v⟩] }
          ls t' v' e hc hv hfind
        refine ⟨by simp [h1, Except.isOk, Except.toBool], ?_, ?_⟩
        · rw [hout]
          simp [h2, Except.isOk, Except.toBool]
        · rw [hout]
          simp [appendOut, h2]
    | none =>
        have h1 := append_new st a ls t v hc hv hfind
        have hout : appendOut st a 0 ls t v
            = ({ st with
                  registry := st.registry ++ [⟨st.nextRef + 1, ls, 0⟩],
                  nextRef := st.nextRef + 1 },
                { a with
                    pendingSeries := a.pendingSeries ++ [⟨st.nextRef + 1, ls⟩],
                    pendingSamples := a.pendingSamples ++ [⟨st.nextRef + 1, t, v⟩] },
                st.nextRef + 1) := by
          simp [appendOut, h1]
        have hfind2 : findByLabels (st.registry ++ [⟨st.nextRef + 1, ls, 0⟩]) ls
            = some ⟨st.nextRef + 1, ls, 0⟩ :=
          findByLabels_append_last st.registry ⟨st.nextRef + 1, ls, 0⟩ hfind
        have h2 := append_found
          { st with
            registry := st.registry ++ [⟨st.nextRef + 1, ls, 0⟩],
            nextRef := st.nextRef + 1 }
          { a with
              pendingSeries := a.pendingSeries ++ [⟨st.nextRef + 1, ls⟩],
              pendingSamples := a.pendingSamples ++ [⟨st.nextRef + 1, t, v⟩] }
          ls t' v' ⟨st.nextRef + 1, ls, 0⟩ hc hv (by simpa using hfind2)
        refine ⟨by simp [h1, Except.isOk, Except.toBool], ?_, ?_⟩
        · rw [hout]
          simp [h2, Except.isOk, Except.toBool]
        · rw [hout]
          simp [appendOut, h2]
  · intro ps hv hs he hp
    obtain ⟨hok, hwal, hcl, hnr⟩ := runCommit_spec ps hv hs he hp
    refine ⟨?_, ?_, ?_⟩
    · rw [okWal_eq, hwal]
      simp [expSeries_refs]
    · rw [okWal_eq, hwal]
      simp only [walSeries_append, walSeries_map_seriesRec, walSeries_map_sampleRec,
        walSeries_map_exemplarRec, List.append_nil, expSeries_refs]
      exact List.nodup_range' _ _
    · have hro : reopen (okSt (runCommit ps))
          = replayRecords (okSt (runCommit ps)).wal := rfl
      rw [hro, replayRecords_nextRef, hwal]
      simp [List.foldl_append, foldl_refFold_expSeries]

/-- C2 witness: the stable-ref property at a concrete fresh storage and the
payload properties at the concrete two-series payload. -/
theorem seriesRef_assignment_props_witness :
    ((append freshStorage emptyAppender 0 [⟨"x", "1"⟩] 0 7).isOk = true ∧
      (append (appendOut freshStorage emptyAppender 0 [⟨"x", "1"⟩] 0 7).1
        (appendOut freshStorage emptyAppender 0 [⟨"x", "1"⟩] 0 7).2.1
        0 [⟨"x", "1"⟩] 1 8).isOk = true ∧
      (appendOut (appendOut freshStorage emptyAppender 0 [⟨"x", "1"⟩] 0 7).1
        (appendOut freshStorage emptyAppender 0 [⟨"x", "1"⟩] 0 7).2.1
        0 [⟨"x", "1"⟩] 1 8).2.2
        = (appendOut freshStorage emptyAppender 0 [⟨"x", "1"⟩] 0 7).2.2) ∧
    ((walSeries (okWal (runCommit truncPayload))).map RefSeries.ref
        = List.range' 1 truncPayload.length ∧
      ((walSeries (okWal (runCommit truncPayload))).map RefSeries.ref).Nodup ∧
      (reopen (okSt (runCommit truncPayload))).nextRef = truncPayload.length) :=
  ⟨seriesRef_assignment_props.1 freshStorage emptyAppender [⟨"x", "1"⟩] 0 1 7 8
      rfl (by decide),
    seriesRef_assignment_props.2 truncPayload (by decide) (by decide) (by decide)
      (by decide)⟩

/-- C2 counterexample: commit two series (refs 1 and 2, series 2 having the
older data), truncate at 5 — which drops series 2 and its series record —
then close and reopen.  The reconstructed `nextRef` is 1 although 2 refs
were ever allocated, and a subsequent fresh series is assigned ref 2 again,
so a ref IS reused across this restart, contradicting the claim. -/
theorem seriesRef_reuse_after_truncate_restart :
    (okSt (runCommit truncPayload)).nextRef = 2 ∧
    (reopen (okSt (truncate (okSt (runCommit truncPayload)) 5))).nextRef = 1 ∧
    (appendOut (reopen (okSt (truncate (okSt (runCommit truncPayload)) 5)))
      emptyAppender 0 [⟨"n", "c"⟩] 0 0).2.2 = 2 := by
  decide

theorem walSamples_filter_keepRec (ks : List Nat) (T : Int) (recs : List Rec) :
    ∀ s ∈ walSamples (recs.filter (keepRec ks T)), T ≤ s.t := by
  induction recs with
  | nil => intro s hs; simp [walSamples] at hs
  | cons r rest ih =>
      intro s hs
      cases r with
      | series rf ls =>
          by_cases hk : rf ∈ ks
            <;> simp [List.filter_cons, keepRec, hk, walSamples] at hs
            <;> exact ih s hs
      | sample rf t v =>
          by_cases hT : T ≤ t
          · simp [List.filter_cons, keepRec, hT, walSamples] at hs
            rcases hs with rfl | hs
            · exact hT
            · exact ih s hs
          · simp [List.filter_cons, keepRec, hT] at hs
            exact ih s hs
      | exemplar rf t v ls =>
          by_cases hT : T ≤ t
            <;> simp [List.filter_cons, keepRec, hT, walSamples] at hs
            <;> exact ih s hs
      | histogram rf t hh =>
          by_cases hT : T ≤ t
            <;> simp [List.filter_cons, keepRec, hT, walSamples] at hs
            <;> exact ih s hs
      | fhistogram rf t hh =>
          by_cases hT : T ≤ t
            <;> simp [List.filter_cons, keepRec, hT, walSamples] at hs
            <;> exact ih s hs
      | tombstone rf =>
          simp [List.filter_cons, keepRec, walSamples] at hs
          exact ih s hs

theorem walSeries_filter_keepRec (ks : List Nat) (T : Int) (recs : List Rec) :
    ∀ rs ∈ walSeries (recs.filter (keepRec ks T)), rs.ref ∈ ks := by
  induction recs with
  | nil => intro rs hrs; simp [walSeries] at hrs
  | cons r rest ih =>
      intro rs hrs
      cases r with
      | series rf ls =>
          by_cases hk : rf ∈ ks
          · simp [List.filter_cons, keepRec, hk, walSeries] at hrs
            rcases hrs with rfl | hrs
            · exact hk
            · exact ih rs hrs
          · simp [List.filter_cons, keepRec, hk] at hrs
            exact ih rs hrs
      | sample rf t v =>
          by_cases hT : T ≤ t
            <;> simp [List.filter_cons, keepRec, hT, walSeries] at hrs
            <;> exact ih rs hrs
      | exemplar rf t v ls =>
          by_cases hT : T ≤ t
            <;> simp [List.filter_cons, keepRec, hT, walSeries] at hrs
            <;> exact ih rs hrs
      | histogram rf t hh =>
          by_cases hT : T ≤ t
            <;> simp [List.filter_cons, keepRec, hT, walSeries] at hrs
            <;> exact ih rs hrs
      | fhistogram rf t hh =>
          by_cases hT : T ≤ t
            <;> simp [List.filter_cons, keepRec, hT, walSeries] at hrs
            <;> exact ih rs hrs
      | tombstone rf =>
          simp [List.filter_cons, keepRec, walSeries] at hrs
          exact ih rs hrs

/-- C3 (amended): for every retention timestamp T, `truncate(T)` succeeds on
an open engine; afterwards every replayed sample has timestamp ≥ T, and
every replayed series record belongs to a series whose pre-truncation
`lastTimestamp` was ≥ T (the §4.5 retention criterion, `keepRefs`) — so a
series whose last committed data-record timestamp is below T no longer
appears.  (The claim's sample-only criterion is refuted by
`truncated_series_without_samples`.) -/
theorem truncate_retention (st : Storage) (T : Int) (h : st.closed = false) :
    (truncate st T).isOk = true ∧
    ((walSamples (okSt (truncate st T)).wal).all
      fun s => decide (T ≤ s.t)) = true ∧
    ((walSeries (okSt (truncate st T)).wal).all
      fun rs => (keepRefs st T).contains rs.ref) = true := by
  refine ⟨by simp [truncate, h, Except.isOk, Except.toBool], ?_, ?_⟩
  · simp only [truncate, h, Bool.false_eq_true, if_false, okSt,
      walSamples_append, walSamples_map_tombstone, List.append_nil,
      List.all_eq_true, decide_eq_true_eq]
    exact walSamples_filter_keepRec _ _ _
  · simp only [truncate, h, Bool.false_eq_true, if_false, okSt,
      walSeries_append, walSeries_map_tombstone, List.append_nil,
      List.all_eq_true]
    intro rs hrs
    exact List.elem_eq_true_of_mem (walSeries_filter_keepRec _ _ _ rs hrs)

/-- C3 witness: truncating the committed `TestStorage` payload at 5. -/
theorem truncate_retention_witness :
    (truncate (okSt (runCommit samplePayload)) 5).isOk = true ∧
    ((walSamples (okSt (truncate (okSt (runCommit samplePayload)) 5)).wal).all
      fun s => decide ((5 : Int) ≤ s.t)) = true ∧
    ((walSeries (okSt (truncate (okSt (runCommit samplePayload)) 5)).wal).all
      fun rs => (keepRefs (okSt (runCommit samplePayload)) 5).contains rs.ref) = true :=
  truncate_retention (okSt (runCommit samplePayload)) 5 (by decide)

/-- C3 counterexample: one series, its only sample at timestamp 0, one
exemplar at timestamp 10; after commit and `truncate(5)` the replayed WAL
has no sample record at all, yet the series record still appears (the
exemplar raised `lastTimestamp` to 10 ≥ 5), contradicting "any series with
no remaining samples at or above T no longer appears". -/
theorem truncated_series_without_samples :
    walSamples (okSt (truncate (okSt (runCommit exTsPayload)) 5)).wal = [] ∧
    walSeries (okSt (truncate (okSt (runCommit exTsPayload)) 5)).wal
      = [⟨1, [⟨"n", "a"⟩]⟩] ∧
    walExemplars (okSt (truncate (okSt (runCommit exTsPayload)) 5)).wal
      = [⟨1, 10, 5, [⟨"e", "x"⟩]⟩] := by
  decide

/-- C4 (amended): an exemplar field-for-field equal to the cached last
staged-or-committed exemplar of its ref is silently dropped (no record, no
error), and so is an exemplar whose timestamp is lower than the cached one
(the out-of-order drop the cited test requires); consequently a call
sequence on one ref starting from an empty cache stages exactly
`keepExemplars none es`, and commit stores exactly that many exemplar
records — not the number of maximal field-equal runs. -/
theorem exemplar_dedup_and_order :
    (∀ (st : Storage) (a : Appender) (r : Nat) (ex prev : Exemplar),
      st.closed = false → (findByRef st.registry r).isSome = true →
      exOk ex = true → lookupEx st.lastEx r = some prev → prev = ex →
      appendExemplar st a r ex = .ok (st, a, r)) ∧
    (∀ (st : Storage) (a : Appender) (r : Nat) (ex prev : Exemplar),
      st.closed = false → (findByRef st.registry r).isSome = true →
      exOk ex = true → lookupEx st.lastEx r = some prev → ex.ts < prev.ts →
      appendExemplar st a r ex = .ok (st, a, r)) ∧
    (∀ (st : Storage) (a : Appender) (r : Nat) (es : List Exemplar),
      st.closed = false → (findByRef st.registry r).isSome = true →
      lookupEx st.lastEx r = none → (∀ e ∈ es, exOk e = true) →
      (runExemplars st a r es).isOk = true ∧
      (okRun st a (runExemplars st a r es)).2.pendingExemplars
        = a.pendingExemplars ++ (keepExemplars none es).map (mkRefEx r) ∧
      walExemplars (okSt (commit (okRun st a (runExemplars st a r es)).1
          (okRun st a (runExemplars st a r es)).2)).wal
        = walExemplars st.wal ++ a.pendingExemplars
          ++ (keepExemplars none es).map (mkRefEx r) ∧
      (walExemplars (okSt (commit (okRun st a (runExemplars st a r es)).1
          (okRun st a (runExemplars st a r es)).2)).wal).length
        = (walExemplars st.wal).length + a.pendingExemplars.length
          + (keepExemplars none es).length) := by
  refine ⟨?_, ?_, ?_⟩
  · intro st a r ex prev hc hreg hok hcache heq
    exact appendExemplar_skip st a r ex prev hc hreg hok hcache (Or.inl heq)
  · intro st a r ex prev hc hreg hok hcache hlt
    exact appendExemplar_skip st a r ex prev hc hreg hok hcache (Or.inr hlt)
  · intro st a r es hc hreg hcache hok
    obtain ⟨st', hrun, hreg', hwal', hcl', hnr', hex'⟩ :=
      runExemplars_spec es st a r hc hreg hok
    have hout : okRun st a (runExemplars st a r es)
        = (st', { a with pendingExemplars := a.pendingExemplars
            ++ (keepExemplars (lookupEx st.lastEx r) es).map (mkRefEx r) }) := by
      simp [okRun, hrun]
    have hwalex : walExemplars (okSt (commit (okRun st a (runExemplars st a r es)).1
        (okRun st a (runExemplars st a r es)).2)).wal
        = walExemplars st.wal ++ a.pendingExemplars
          ++ (keepExemplars none es).map (mkRefEx r) := by
      rw [hout]
      have hcsp := commit_spec st'
        { a with pendingExemplars := a.pendingExemplars
            ++ (keepExemplars (lookupEx st.lastEx r) es).map (mkRefEx r) } hcl'
      rw [hcsp.2.1, hwal', hcache]
      simp only [walExemplars_append, walExemplars_map_seriesRec,
        walExemplars_map_sampleRec, walExemplars_map_exemplarRec,
        walExemplars_map_histRec, walExemplars_map_fhistRec,
        List.append_nil]
      simp [List.append_assoc]
    refine ⟨by simp [hrun, Except.isOk, Except.toBool], ?_, hwalex, ?_⟩
    · rw [hout]
      simp [hcache]
    · rw [hwalex]
      simp only [List.length_append, List.length_map]

/-- C4 witness: the no-op cases on a concrete cached storage, and the
eleven-call sequence of the test on a registered ref with empty cache. -/
theorem exemplar_dedup_and_order_witness :
    (appendExemplar cachedStorage emptyAppender 1 cachedEx = .ok
      (cachedStorage, emptyAppender, 1)) ∧
    (appendExemplar cachedStorage emptyAppender 1 olderEx = .ok
      (cachedStorage, emptyAppender, 1)) ∧
    ((runExemplars regStorage emptyAppender 1 exemplarCalls).isOk = true ∧
      (okRun regStorage emptyAppender
        (runExemplars regStorage emptyAppender 1 exemplarCalls)).2.pendingExemplars
        = emptyAppender.pendingExemplars
          ++ (keepExemplars none exemplarCalls).map (mkRefEx 1) ∧
      walExemplars (okSt (commit
          (okRun regStorage emptyAppender
            (runExemplars regStorage emptyAppender 1 exemplarCalls)).1
          (okRun regStorage emptyAppender
            (runExemplars regStorage emptyAppender 1 exemplarCalls)).2)).wal
        = walExemplars regStorage.wal ++ emptyAppender.pendingExemplars
          ++ (keepExemplars none exemplarCalls).map (mkRefEx 1) ∧
      (walExemplars (okSt (commit
          (okRun regStorage emptyAppender
            (runExemplars regStorage emptyAppender 1 exemplarCalls)).1
          (okRun regStorage emptyAppender
            (runExemplars regStorage emptyAppender 1 exemplarCalls)).2)).wal).length
        = (walExemplars regStorage.wal).length
          + emptyAppender.pendingExemplars.length
          + (keepExemplars none exemplarCalls).length) :=
  ⟨exemplar_dedup_and_order.1 cachedStorage emptyAppender 1 cachedEx cachedEx
      rfl (by decide) (by decide) (by decide) rfl,
    exemplar_dedup_and_order.2.1 cachedStorage emptyAppender 1 olderEx cachedEx
      rfl (by decide) (by decide) (by decide) (by decide),
    exemplar_dedup_and_order.2.2 regStorage emptyAppender 1 exemplarCalls
      rfl (by decide) rfl (by decide)⟩

/-- C4 counterexample: the cited test's own call sequence (11 calls) has 5
maximal runs of consecutive field-equal calls and 5 distinct-from-predecessor
values, yet only 4 exemplar records are stored after commit (the count the
test requires); "stored records = maximal runs" is false, as is the
parenthetical "11 calls with 4 distinct-from-predecessor values".  The
spec-words-only dedup (`dedupOnlyExemplars`) would store 5. -/
theorem exemplar_run_count_mismatch :
    runsCount exemplarCalls = 5 ∧
    (dedupOnlyExemplars none exemplarCalls).length = 5 ∧
    (keepExemplars none exemplarCalls).length = 4 ∧
    (walExemplars (okSt (commit
        (okRun regStorage emptyAppender
          (runExemplars regStorage emptyAppender 1 exemplarCalls)).1
        (okRun regStorage emptyAppender
          (runExemplars regStorage emptyAppender 1 exemplarCalls)).2)).wal).length
      = 4 := by
  decide

/-- C5: `rollback` writes exactly the staged series records to the WAL
(keeping newly allocated refs valid — the registry is untouched) and writes
none of the staged sample, exemplar, histogram or float-histogram records:
replay after rollback shows the transaction's series records and zero data
records from it. -/
theorem rollback_preserves_series_only (st : Storage) (a : Appender)
    (h : st.closed = false) :
    (rollback st a).isOk = true ∧
    (okSt (rollback st a)).wal = st.wal ++ a.pendingSeries.map seriesRec ∧
    walSeries (okSt (rollback st a)).wal = walSeries st.wal ++ a.pendingSeries ∧
    walSamples (okSt (rollback st a)).wal = walSamples st.wal ∧
    walExemplars (okSt (rollback st a)).wal = walExemplars st.wal ∧
    walHistograms (okSt (rollback st a)).wal = walHistograms st.wal ∧
    walFHistograms (okSt (rollback st a)).wal = walFHistograms st.wal ∧
    (okSt (rollback st a)).registry = st.registry := by
  obtain ⟨hok, hwal, hreg, hcl, hnr⟩ := rollback_spec st a h
  exact ⟨hok, hwal, by rw [hwal]; simp, by rw [hwal]; simp, by rw [hwal]; simp,
    by rw [hwal]; simp, by rw [hwal]; simp, hreg⟩

/-- C5 witness: rolling back the staged (uncommitted) `TestStorage`
payload. -/
theorem rollback_preserves_series_only_witness :
    (rollback stagedRun.1 stagedRun.2).isOk = true ∧
    (okSt (rollback stagedRun.1 stagedRun.2)).wal
      = stagedRun.1.wal ++ stagedRun.2.pendingSeries.map seriesRec ∧
    walSeries (okSt (rollback stagedRun.1 stagedRun.2)).wal
      = walSeries stagedRun.1.wal ++ stagedRun.2.pendingSeries ∧
    walSamples (okSt (rollback stagedRun.1 stagedRun.2)).wal
      = walSamples stagedRun.1.wal ∧
    walExemplars (okSt (rollback stagedRun.1 stagedRun.2)).wal
      = walExemplars stagedRun.1.wal ∧
    walHistograms (okSt (rollback stagedRun.1 stagedRun.2)).wal
      = walHistograms stagedRun.1.wal ∧
    walFHistograms (okSt (rollback stagedRun.1 stagedRun.2)).wal
      = walFHistograms stagedRun.1.wal ∧
    (okSt (rollback stagedRun.1 stagedRun.2)).registry = stagedRun.1.registry :=
  rollback_preserves_series_only stagedRun.1 stagedRun.2 (by decide)

/-- C6: `appendExemplar` rejects invalid input synchronously: an unregistered
ref (including 0 on a registry that never issued it) fails with
`unknownSeriesRef`; a summed label length above the fixed maximum fails with
`exemplarLabelTooLong`; duplicate label names fail with `invalidExemplar`. -/
theorem appendExemplar_error_cases :
    (∀ (st : Storage) (a : Appender) (r : Nat) (ex : Exemplar),
      st.closed = false → findByRef st.registry r = none →
      appendExemplar st a r ex = .error .unknownSeriesRef) ∧
    (∀ (st : Storage) (a : Appender) (r : Nat) (ex : Exemplar),
      st.closed = false → (findByRef st.registry r).isSome = true →
      maxExemplarLabelLength < exLabelLen ex.labels →
      appendExemplar st a r ex = .error .exemplarLabelTooLong) ∧
    (∀ (st : Storage) (a : Appender) (r : Nat) (ex : Exemplar),
      st.closed = false → (findByRef st.registry r).isSome = true →
      exLabelLen ex.labels ≤ maxExemplarLabelLength →
      nodupNames (ex.labels.map Label.name) = false →
      appendExemplar st a r ex = .error .invalidExemplar) := by
  refine ⟨?_, ?_, ?_⟩
  · intro st a r ex hc hfind
    simp [appendExemplar, hc, hfind]
  · intro st a r ex hc hreg hlen
    simp [appendExemplar, hc, hreg, hlen]
  · intro st a r ex hc hreg hlen hnd
    have hlen' : ¬ (maxExemplarLabelLength < exLabelLen ex.labels) :=
      Nat.not_lt.mpr hlen
    simp [appendExemplar, hc, hreg, hlen', hnd]

/-- C6 witness: ref 0 on a fresh storage, the test's over-long trace-id
exemplar, and a duplicate-name exemplar on a registered ref. -/
theorem appendExemplar_error_cases_witness :
    appendExemplar freshStorage emptyAppender 0 cachedEx
      = .error .unknownSeriesRef ∧
    appendExemplar regStorage emptyAppender 1 longTraceEx
      = .error .exemplarLabelTooLong ∧
    appendExemplar regStorage emptyAppender 1 dupLabelEx
      = .error .invalidExemplar :=
  ⟨appendExemplar_error_cases.1 freshStorage emptyAppender 0 cachedEx rfl rfl,
    appendExemplar_error_cases.2.1 regStorage emptyAppender 1 longTraceEx
      rfl (by decide) (by decide),
    appendExemplar_error_cases.2.2 regStorage emptyAppender 1 dupLabelEx
      rfl (by decide) (by decide) (by decide)⟩

/-- C7: `append` with ref 0 always rejects an empty label set and a label
set with duplicate names with `invalidLabels`, and accepts any non-empty
name-unique label set. -/
theorem append_invalid_labels :
    (∀ (st : Storage) (a : Appender) (t : Int) (v : Value),
      st.closed = false → append st a 0 [] t v = .error .invalidLabels) ∧
    (∀ (st : Storage) (a : Appender) (ls : LabelSet) (t : Int) (v : Value),
      st.closed = false → nodupNames (ls.map Label.name) = false →
      append st a 0 ls t v = .error .invalidLabels) ∧
    (∀ (st : Storage) (a : Appender) (ls : LabelSet) (t : Int) (v : Value),
      st.closed = false → lsetValid ls = true →
      (append st a 0 ls t v).isOk = true) := by
  refine ⟨?_, ?_, ?_⟩
  · intro st a t v hc
    simp [append, hc, lsetValid]
  · intro st a ls t v hc hnd
    simp [append, hc, lsetValid, hnd]
  · intro st a ls t v hc hv
    cases hfind : findByLabels st.registry ls with
    | some e => simp [append, hc, hv, hfind, Except.isOk, Except.toBool]
    | none => simp [append, hc, hv, hfind, Except.isOk, Except.toBool]

/-- C7 witness: empty labels, duplicate names, and a valid label set on a
fresh storage. -/
theorem append_invalid_labels_witness :
    append freshStorage emptyAppender 0 [] 0 0 = .error .invalidLabels ∧
    append freshStorage emptyAppender 0 [⟨"a", "1"⟩, ⟨"a", "2"⟩] 0 0
      = .error .invalidLabels ∧
    (append freshStorage emptyAppender 0 [⟨"a", "1"⟩] 0 0).isOk = true :=
  ⟨append_invalid_labels.1 freshStorage emptyAppender 0 0 rfl,
    append_invalid_labels.2.1 freshStorage emptyAppender
      [⟨"a", "1"⟩, ⟨"a", "2"⟩] 0 0 rfl (by decide),
    append_invalid_labels.2.2 freshStorage emptyAppender [⟨"a", "1"⟩] 0 0
      rfl (by decide)⟩

/-- C8: opening a log directory never fails, also when a segment is
unreadable garbage: the engine comes back open (not closed), a valid append
is accepted on it, and the records before the corrupt segment are exactly
the replayed history (the corrupt data is the end of durable history). -/
theorem openStorage_corruption_tolerant :
    (∀ segs : List Seg, (openStorage segs).isOk = true ∧
      (okSt (openStorage segs)).closed = false) ∧
    (∀ (rs : List Rec) (post : List Seg),
      readSegs (Seg.good rs :: Seg.corrupt :: post) = rs) ∧
    (∀ (segs : List Seg) (ls : LabelSet) (t : Int) (v : Value),
      lsetValid ls = true →
      (append (okSt (openStorage segs)) emptyAppender 0 ls t v).isOk = true) := by
  have hcl : ∀ segs : List Seg, (okSt (openStorage segs)).closed = false := by
    intro segs
    simp [openStorage, okSt, replayRecords_closed]
  refine ⟨fun segs => ⟨by simp [openStorage, Except.isOk, Except.toBool], hcl segs⟩,
    ?_, ?_⟩
  · intro rs post
    simp [readSegs]
  · intro segs ls t v hv
    cases hfind : findByLabels (okSt (openStorage segs)).registry ls with
    | some e => simp [append, hcl segs, hv, hfind, Except.isOk, Except.toBool]
    | none => simp [append, hcl segs, hv, hfind, Except.isOk, Except.toBool]

/-- C8 witness: a directory whose second segment is garbage. -/
theorem openStorage_corruption_tolerant_witness :
    ((openStorage corruptSegs).isOk = true ∧
      (okSt (openStorage corruptSegs)).closed = false) ∧
    readSegs (Seg.good [Rec.series 1 [⟨"a", "1"⟩], Rec.sample 1 3 7]
        :: Seg.corrupt :: [])
      = [Rec.series 1 [⟨"a", "1"⟩], Rec.sample 1 3 7] ∧
    (append (okSt (openStorage corruptSegs)) emptyAppender 0 [⟨"b", "2"⟩] 0 0).isOk
      = true :=
  ⟨openStorage_corruption_tolerant.1 corruptSegs,
    openStorage_corruption_tolerant.2.1 [Rec.series 1 [⟨"a", "1"⟩], Rec.sample 1 3 7] [],
    openStorage_corruption_tolerant.2.2 corruptSegs [⟨"b", "2"⟩] 0 0 (by decide)⟩

/-- C9: with a cutoff at or above every series' last timestamp (such as
+infinity), `writeStalenessMarkers` commits exactly one additional sample
per previously-known series, at the series' last timestamp, and every such
sample's value is the reserved stale-NaN sentinel, which is a NaN bit
pattern distinct from an ordinary NaN. -/
theorem staleness_markers_per_series (st : Storage) (cutoff : Int)
    (h : st.closed = false) (hcut : ∀ e ∈ st.registry, e.lastTs ≤ cutoff) :
    (writeStalenessMarkers st cutoff).isOk = true ∧
    (okSt (writeStalenessMarkers st cutoff)).wal
      = st.wal ++ st.registry.map (fun e => Rec.sample e.ref e.lastTs staleNaN) ∧
    walSamples (okSt (writeStalenessMarkers st cutoff)).wal
      = walSamples st.wal
        ++ st.registry.map (fun e => (⟨e.ref, e.lastTs, staleNaN⟩ : RefSample)) ∧
    (walSamples (okSt (writeStalenessMarkers st cutoff)).wal).length
      = (walSamples st.wal).length + st.registry.length ∧
    ((st.registry.map (fun e => (⟨e.ref, e.lastTs, staleNaN⟩ : RefSample))).all
      fun s => decide (s.v = staleNaN)) = true ∧
    isNaNPattern staleNaN = true ∧ isNaNPattern normalNaN = true ∧
    staleNaN ≠ normalNaN := by
  have hfe : st.registry.filter (fun e => decide (e.lastTs ≤ cutoff)) = st.registry := by
    have hgen : ∀ l : List SeriesEntry, (∀ e ∈ l, e.lastTs ≤ cutoff) →
        l.filter (fun e => decide (e.lastTs ≤ cutoff)) = l := by
      intro l
      induction l with
      | nil => intro _; rfl
      | cons e rest ih =>
          intro hl
          have hd : decide (e.lastTs ≤ cutoff) = true :=
            decide_eq_true (hl e (by simp))
          simp [List.filter_cons, hd, ih (fun x hx => hl x (by simp [hx]))]
    exact hgen st.registry hcut
  have hws : writeStalenessMarkers st cutoff
      = commit st { emptyAppender with pendingSamples := staleSamples st } := by
    simp [writeStalenessMarkers, h, hfe, staleSamples]
  rw [hws]
  have hcsp := commit_spec st
    { emptyAppender with pendingSamples := staleSamples st } h
  have hsamp : walSamples (okSt (commit st
      { emptyAppender with pendingSamples := staleSamples st })).wal
      = walSamples st.wal ++ staleSamples st := by
    rw [hcsp.2.1]
    simp [emptyAppender]
  refine ⟨hcsp.1, ?_, hsamp, ?_, by simp, by decide, by decide, by decide⟩
  · rw [hcsp.2.1]
    simp [emptyAppender, staleSamples, List.map_map, Function.comp, sampleRec]
  · rw [hsamp]
    simp [staleSamples]

/-- C9 witness: a storage with two live series and the +infinity cutoff. -/
theorem staleness_markers_per_series_witness :
    (writeStalenessMarkers staleStorage maxInt64).isOk = true ∧
    (okSt (writeStalenessMarkers staleStorage maxInt64)).wal
      = staleStorage.wal
        ++ staleStorage.registry.map (fun e => Rec.sample e.ref e.lastTs staleNaN) ∧
    walSamples (okSt (writeStalenessMarkers staleStorage maxInt64)).wal
      = walSamples staleStorage.wal
        ++ staleStorage.registry.map
            (fun e => (⟨e.ref, e.lastTs, staleNaN⟩ : RefSample)) ∧
    (walSamples (okSt (writeStalenessMarkers staleStorage maxInt64)).wal).length
      = (walSamples staleStorage.wal).length + staleStorage.registry.length ∧
    ((staleStorage.registry.map
        (fun e => (⟨e.ref, e.lastTs, staleNaN⟩ : RefSample))).all
      fun s => decide (s.v = staleNaN)) = true ∧
    isNaNPattern staleNaN = true ∧ isNaNPattern normalNaN = true ∧
    staleNaN ≠ normalNaN :=
  staleness_markers_per_series staleStorage maxInt64 rfl (by decide)

end Wal
